import Mathlib

/-!
Verification of the go-fil-commp-hashhash streaming commP calculator.

The Go source is shallowly embedded: byte buffers are lists of naturals
(each byte a value below 256), the SHA-256 primitive is an abstract
function parameter, and the concurrent layer pipeline is modelled by its
deterministic sequential semantics (each layer consumes its queue in FIFO
order, which the mutex-serialized writers guarantee).
-/

set_option maxRecDepth 8000

namespace Commp

/-- MaxLayers from the source, result of log2( 64 GiB / 32 ). -/
def MaxLayers : Nat := 31

/-- MaxPieceSize from the source: 1 shifted left by MaxLayers + 5. -/
def MaxPieceSize : Nat := 1 <<< (MaxLayers + 5)

/-- MaxPiecePayload from the source: MaxPieceSize / 128 * 127. -/
def MaxPiecePayload : Nat := MaxPieceSize / 128 * 127

/-- MinPiecePayload from the source: 65 bytes. -/
def MinPiecePayload : Nat := 65

/-- Payload bytes per quad: the 127-byte block size. -/
def quadPayload : Nat := 127

/-- Internal buffer capacity of the Calc object: 256 quads. -/
def bufferSize : Nat := 256 * quadPayload

/-- Go copy of a prefix: the first k entries of dst are replaced by those
of src (models copy(expander, input[:32]) in digestQuads). -/
def copyPrefix (dst src : List Nat) (k : Nat) : List Nat :=
  src.take k ++ dst.drop k

/-- One of the three shift loops of digestQuads: repeatedly performs
expander[i+1] = input[i+1] shifted left by shl, OR input[i] shifted right
by shr, as byte arithmetic (the left shift truncates modulo 256), for n
iterations starting at loop index i. -/
def expandLoopN (b : List Nat) (shl shr : Nat) : Nat → Nat → List Nat → List Nat
  | 0, _, e => e
  | n + 1, i, e =>
      expandLoopN b shl shr n (i + 1)
        (e.set (i + 1) ((b.getD (i + 1) 0 <<< shl) % 256 ||| b.getD i 0 >>> shr))

/-- Fr32 expansion of one 127-byte quad into 128 leaf bytes, translated
from the body of digestQuads (part_001 lines 233-274, identically
digestLeading127Bytes in part_000): copy the first 32 bytes, mask byte 31,
run the three shift loops with masks at bytes 63 and 95, and finish with
the 6-bit remainder at byte 127. -/
def fr32Quad (b : List Nat) : List Nat :=
  let e := List.replicate 128 0
  let e := copyPrefix e b 32
  let e := e.set 31 (e.getD 31 0 &&& 0x3F)
  let e := expandLoopN b 2 6 32 31 e
  let e := e.set 63 (e.getD 63 0 &&& 0x3F)
  let e := expandLoopN b 4 4 32 63 e
  let e := e.set 95 (e.getD 95 0 &&& 0x3F)
  let e := expandLoopN b 6 2 31 95 e
  e.set 127 (b.getD 126 0 >>> 2)

/-- Closed form of fr32Quad, byte by byte, exactly as the specification
states the transform. -/
def fr32ByteSpec (b : List Nat) (i : Nat) : Nat :=
  if i < 31 then b.getD i 0
  else if i = 31 then b.getD 31 0 &&& 0x3F
  else if i < 63 then (b.getD i 0 <<< 2) % 256 ||| b.getD (i - 1) 0 >>> 6
  else if i = 63 then ((b.getD 63 0 <<< 2) % 256 ||| b.getD 62 0 >>> 6) &&& 0x3F
  else if i < 95 then (b.getD i 0 <<< 4) % 256 ||| b.getD (i - 1) 0 >>> 4
  else if i = 95 then ((b.getD 95 0 <<< 4) % 256 ||| b.getD 94 0 >>> 4) &&& 0x3F
  else if i < 127 then (b.getD i 0 <<< 6) % 256 ||| b.getD (i - 1) 0 >>> 2
  else b.getD 126 0 >>> 2

lemma getD_set_self (l : List Nat) (i v : Nat) (h : i < l.length) :
    (l.set i v).getD i 0 = v := by
  simp [List.getD_eq_getElem?_getD, List.getElem?_set_self h]

lemma getD_set_ne (l : List Nat) (i j v : Nat) (h : i ≠ j) :
    (l.set i v).getD j 0 = l.getD j 0 := by
  simp [List.getD_eq_getElem?_getD, List.getElem?_set_ne h]

lemma expandLoopN_length (b : List Nat) (s r : Nat) :
    ∀ (n i : Nat) (e : List Nat), (expandLoopN b s r n i e).length = e.length := by
  intro n
  induction n with
  | zero => intro i e; rfl
  | succ n ih => intro i e; rw [expandLoopN, ih]; simp

lemma expandLoopN_getD (b : List Nat) (s r : Nat) :
    ∀ (n i : Nat) (e : List Nat), e.length = 128 → i + n ≤ 127 →
      ∀ j, (expandLoopN b s r n i e).getD j 0 =
        if i + 1 ≤ j ∧ j ≤ i + n then (b.getD j 0 <<< s) % 256 ||| b.getD (j - 1) 0 >>> r
        else e.getD j 0 := by
  intro n
  induction n with
  | zero =>
      intro i e _ _ j
      rw [expandLoopN, if_neg (by omega)]
  | succ n ih =>
      intro i e he hi j
      rw [expandLoopN, ih (i + 1) _ (by simp [he]) (by omega) j]
      by_cases h1 : i + 2 ≤ j ∧ j ≤ i + 1 + n
      · rw [if_pos h1, if_pos (by omega)]
      · rw [if_neg h1]
        by_cases h2 : j = i + 1
        · subst h2
          rw [if_pos (by omega), getD_set_self _ _ _ (by omega)]
          simp
        · rw [if_neg (by omega), getD_set_ne _ _ _ _ (by omega)]

lemma fr32Quad_length (b : List Nat) (hb : b.length = 127) :
    (fr32Quad b).length = 128 := by
  simp [fr32Quad, copyPrefix, expandLoopN_length, hb]

lemma fr32Quad_getD (b : List Nat) (hb : b.length = 127) (i : Nat) (hi : i < 128) :
    (fr32Quad b).getD i 0 = fr32ByteSpec b i := by
  have hcp : (copyPrefix (List.replicate 128 0) b 32).length = 128 := by
    simp [copyPrefix, hb]
  have hcpget : ∀ j, j < 32 → (copyPrefix (List.replicate 128 0) b 32).getD j 0 = b.getD j 0 := by
    intro j hj
    simp only [copyPrefix, List.getD_eq_getElem?_getD]
    rw [List.getElem?_append_left (by simp [hb]; omega)]
    rw [List.getElem?_take_of_lt hj]
  have h31 : (copyPrefix (List.replicate 128 0) b 32).getD 31 0 = b.getD 31 0 :=
    hcpget 31 (by omega)
  unfold fr32Quad
  simp only []
  set e0 := copyPrefix (List.replicate 128 0) b 32 with he0
  set e1 := e0.set 31 (e0.getD 31 0 &&& 0x3F) with he1
  set e2 := expandLoopN b 2 6 32 31 e1 with he2
  set e3 := e2.set 63 (e2.getD 63 0 &&& 0x3F) with he3
  set e4 := expandLoopN b 4 4 32 63 e3 with he4
  set e5 := e4.set 95 (e4.getD 95 0 &&& 0x3F) with he5
  set e6 := expandLoopN b 6 2 31 95 e5 with he6
  have l0 : e0.length = 128 := hcp
  have l1 : e1.length = 128 := by rw [he1, List.length_set]; exact l0
  have l2 : e2.length = 128 := by rw [he2, expandLoopN_length]; exact l1
  have l3 : e3.length = 128 := by rw [he3, List.length_set]; exact l2
  have l4 : e4.length = 128 := by rw [he4, expandLoopN_length]; exact l3
  have l5 : e5.length = 128 := by rw [he5, List.length_set]; exact l4
  have l6 : e6.length = 128 := by rw [he6, expandLoopN_length]; exact l5
  have g2 : ∀ j, e2.getD j 0 =
      if 32 ≤ j ∧ j ≤ 63 then (b.getD j 0 <<< 2) % 256 ||| b.getD (j - 1) 0 >>> 6
      else e1.getD j 0 := by
    intro j
    rw [he2, expandLoopN_getD b 2 6 32 31 e1 l1 (by omega) j]
  have g4 : ∀ j, e4.getD j 0 =
      if 64 ≤ j ∧ j ≤ 95 then (b.getD j 0 <<< 4) % 256 ||| b.getD (j - 1) 0 >>> 4
      else e3.getD j 0 := by
    intro j
    rw [he4, expandLoopN_getD b 4 4 32 63 e3 l3 (by omega) j]
  have g6 : ∀ j, e6.getD j 0 =
      if 96 ≤ j ∧ j ≤ 126 then (b.getD j 0 <<< 6) % 256 ||| b.getD (j - 1) 0 >>> 2
      else e5.getD j 0 := by
    intro j
    rw [he6, expandLoopN_getD b 6 2 31 95 e5 l5 (by omega) j]
  by_cases h127 : i = 127
  · subst h127
    rw [getD_set_self _ _ _ (by omega)]
    simp [fr32ByteSpec]
  rw [getD_set_ne _ _ _ _ (by omega), g6 i]
  by_cases hg3 : 96 ≤ i ∧ i ≤ 126
  · rw [if_pos hg3]
    simp only [fr32ByteSpec]
    rw [if_neg (by omega), if_neg (by omega), if_neg (by omega), if_neg (by omega),
      if_neg (by omega), if_neg (by omega), if_pos (by omega)]
  rw [if_neg hg3]
  by_cases h95 : i = 95
  · subst h95
    rw [he5, getD_set_self _ _ _ (by omega), g4 95, if_pos (by omega)]
    simp [fr32ByteSpec]
  rw [he5, getD_set_ne _ _ _ _ (by omega), g4 i]
  by_cases hg2 : 64 ≤ i ∧ i ≤ 94
  · rw [if_pos (by omega)]
    simp only [fr32ByteSpec]
    rw [if_neg (by omega), if_neg (by omega), if_neg (by omega), if_neg (by omega),
      if_pos (by omega)]
  rw [if_neg (by omega)]
  by_cases h63 : i = 63
  · subst h63
    rw [he3, getD_set_self _ _ _ (by omega), g2 63, if_pos (by omega)]
    simp [fr32ByteSpec]
  rw [he3, getD_set_ne _ _ _ _ (by omega), g2 i]
  by_cases hg1 : 32 ≤ i ∧ i ≤ 62
  · rw [if_pos (by omega)]
    simp only [fr32ByteSpec]
    rw [if_neg (by omega), if_neg (by omega), if_pos (by omega)]
  rw [if_neg (by omega)]
  by_cases h31x : i = 31
  · subst h31x
    rw [he1, getD_set_self _ _ _ (by omega), h31]
    simp [fr32ByteSpec]
  · rw [he1, getD_set_ne _ _ _ _ (by omega), hcpget i (by omega)]
    simp only [fr32ByteSpec]
    rw [if_pos (by omega)]

lemma getD_lt_256 (b : List Nat) (hB : ∀ x ∈ b, x < 256) (k : Nat) :
    b.getD k 0 < 256 := by
  by_cases h : k < b.length
  · have : b.getD k 0 = b[k] := List.getD_eq_getElem b 0 h
    rw [this]
    exact hB _ (List.getElem_mem h)
  · rw [List.getD_eq_default _ _ (by omega)]
    norm_num

lemma testBit_hi_false (x : Nat) (hx : x < 256) (k : Nat) (hk : 8 ≤ k) :
    Nat.testBit x k = false := by
  apply Nat.testBit_lt_two_pow
  calc x < 256 := hx
    _ = 2 ^ 8 := by norm_num
    _ ≤ 2 ^ k := Nat.pow_le_pow_right (by norm_num) hk

lemma testBit_group2 (x y j : Nat) (hx : x < 256) (hj : j < 8) :
    Nat.testBit ((y <<< 2) % 256 ||| x >>> 6) j =
      if j < 2 then Nat.testBit x (6 + j) else Nat.testBit y (j - 2) := by
  have h8 : (256 : Nat) = 2 ^ 8 := by norm_num
  have hxf : ∀ k, 8 ≤ k → Nat.testBit x k = false := testBit_hi_false x hx
  rw [h8]
  simp only [Nat.testBit_or, Nat.testBit_mod_two_pow, Nat.testBit_shiftLeft,
    Nat.testBit_shiftRight]
  interval_cases j <;> simp [hxf]

lemma testBit_group4 (x y j : Nat) (hx : x < 256) (hj : j < 8) :
    Nat.testBit ((y <<< 4) % 256 ||| x >>> 4) j =
      if j < 4 then Nat.testBit x (4 + j) else Nat.testBit y (j - 4) := by
  have h8 : (256 : Nat) = 2 ^ 8 := by norm_num
  have hxf : ∀ k, 8 ≤ k → Nat.testBit x k = false := testBit_hi_false x hx
  rw [h8]
  simp only [Nat.testBit_or, Nat.testBit_mod_two_pow, Nat.testBit_shiftLeft,
    Nat.testBit_shiftRight]
  interval_cases j <;> simp [hxf]

lemma testBit_group6 (x y j : Nat) (hx : x < 256) (hj : j < 8) :
    Nat.testBit ((y <<< 6) % 256 ||| x >>> 2) j =
      if j < 6 then Nat.testBit x (2 + j) else Nat.testBit y (j - 6) := by
  have h8 : (256 : Nat) = 2 ^ 8 := by norm_num
  have hxf : ∀ k, 8 ≤ k → Nat.testBit x k = false := testBit_hi_false x hx
  rw [h8]
  simp only [Nat.testBit_or, Nat.testBit_mod_two_pow, Nat.testBit_shiftLeft,
    Nat.testBit_shiftRight]
  interval_cases j <;> simp [hxf]

lemma testBit_mask63 (x j : Nat) :
    Nat.testBit (x &&& 0x3F) j = (decide (j < 6) && Nat.testBit x j) := by
  have h6 : (0x3F : Nat) = 2 ^ 6 - 1 := by norm_num
  rw [h6, Nat.testBit_and, Nat.testBit_two_pow_sub_one, Bool.and_comm]

/-- Output bit p of the Fr32 expansion of quad b, in LSB-first order within
each output byte. -/
def quadOutBit (b : List Nat) (p : Nat) : Bool :=
  Nat.testBit ((fr32Quad b).getD (p / 8) 0) (p % 8)

/-- Input bit p of quad b, in LSB-first order within each byte. -/
def quadInBit (b : List Nat) (p : Nat) : Bool :=
  Nat.testBit (b.getD (p / 8) 0) (p % 8)

/-- Claim C1: for every 127-byte input window, the 128-byte Fr32 expansion
produced by digestQuads equals the byte-shift formulas of the spec
(fr32ByteSpec) and, equivalently, its output bitstream is the input
bitstream with two zero bits inserted after every 254 input bits. -/
theorem fr32_expansion_correct (b : List Nat) (hb : b.length = 127)
    (hB : ∀ x ∈ b, x < 256) :
    (∀ i, i < 128 → (fr32Quad b).getD i 0 = fr32ByteSpec b i) ∧
    (∀ p, p < 1024 → quadOutBit b p =
      if 254 ≤ p % 256 then false
      else quadInBit b (p / 256 * 254 + p % 256)) := by
  have hblt : ∀ k, b.getD k 0 < 256 := getD_lt_256 b hB
  refine ⟨fun i hi => fr32Quad_getD b hb i hi, fun p hp => ?_⟩
  have hq128 : p / 8 < 128 := by omega
  rw [quadOutBit, fr32Quad_getD b hb (p / 8) hq128]
  set q := p / 8 with hqdef
  set j := p % 8 with hjdef
  have hj8 : j < 8 := by omega
  rw [fr32ByteSpec]
  by_cases r0 : q < 31
  · rw [if_pos r0, if_neg (by omega), quadInBit]
    have i1 : (p / 256 * 254 + p % 256) / 8 = q := by omega
    have i2 : (p / 256 * 254 + p % 256) % 8 = j := by omega
    rw [i1, i2]
  rw [if_neg r0]
  by_cases r1 : q = 31
  · rw [if_pos r1, testBit_mask63]
    by_cases j6 : j < 6
    · rw [if_neg (by omega), quadInBit]
      have i1 : (p / 256 * 254 + p % 256) / 8 = 31 := by omega
      have i2 : (p / 256 * 254 + p % 256) % 8 = j := by omega
      rw [i1, i2]
      simp [j6]
    · rw [if_pos (by omega)]
      simp [j6]
  rw [if_neg r1]
  by_cases r2 : q < 63
  · rw [if_pos r2, testBit_group2 _ _ j (hblt (q - 1)) hj8]
    by_cases j2 : j < 2
    · rw [if_pos j2, if_neg (by omega), quadInBit]
      have i1 : (p / 256 * 254 + p % 256) / 8 = q - 1 := by omega
      have i2 : (p / 256 * 254 + p % 256) % 8 = 6 + j := by omega
      rw [i1, i2]
    · rw [if_neg j2, if_neg (by omega), quadInBit]
      have i1 : (p / 256 * 254 + p % 256) / 8 = q := by omega
      have i2 : (p / 256 * 254 + p % 256) % 8 = j - 2 := by omega
      rw [i1, i2]
  rw [if_neg r2]
  by_cases r3 : q = 63
  · rw [if_pos r3, testBit_mask63, testBit_group2 _ _ j (hblt 62) hj8]
    by_cases j2 : j < 2
    · rw [if_pos j2, if_neg (by omega), quadInBit]
      have i1 : (p / 256 * 254 + p % 256) / 8 = 62 := by omega
      have i2 : (p / 256 * 254 + p % 256) % 8 = 6 + j := by omega
      rw [i1, i2]
      simp [show j < 6 by omega]
    · rw [if_neg j2]
      by_cases j6 : j < 6
      · rw [if_neg (by omega), quadInBit]
        have i1 : (p / 256 * 254 + p % 256) / 8 = 63 := by omega
        have i2 : (p / 256 * 254 + p % 256) % 8 = j - 2 := by omega
        rw [i1, i2]
        simp [j6]
      · rw [if_pos (by omega)]
        simp [j6]
  rw [if_neg r3]
  by_cases r4 : q < 95
  · rw [if_pos r4, testBit_group4 _ _ j (hblt (q - 1)) hj8]
    by_cases j4 : j < 4
    · rw [if_pos j4, if_neg (by omega), quadInBit]
      have i1 : (p / 256 * 254 + p % 256) / 8 = q - 1 := by omega
      have i2 : (p / 256 * 254 + p % 256) % 8 = 4 + j := by omega
      rw [i1, i2]
    · rw [if_neg j4, if_neg (by omega), quadInBit]
      have i1 : (p / 256 * 254 + p % 256) / 8 = q := by omega
      have i2 : (p / 256 * 254 + p % 256) % 8 = j - 4 := by omega
      rw [i1, i2]
  rw [if_neg r4]
  by_cases r5 : q = 95
  · rw [if_pos r5, testBit_mask63, testBit_group4 _ _ j (hblt 94) hj8]
    by_cases j4 : j < 4
    · rw [if_pos j4, if_neg (by omega), quadInBit]
      have i1 : (p / 256 * 254 + p % 256) / 8 = 94 := by omega
      have i2 : (p / 256 * 254 + p % 256) % 8 = 4 + j := by omega
      rw [i1, i2]
      simp [show j < 6 by omega]
    · rw [if_neg j4]
      by_cases j6 : j < 6
      · rw [if_neg (by omega), quadInBit]
        have i1 : (p / 256 * 254 + p % 256) / 8 = 95 := by omega
        have i2 : (p / 256 * 254 + p % 256) % 8 = j - 4 := by omega
        rw [i1, i2]
        simp [j6]
      · rw [if_pos (by omega)]
        simp [j6]
  rw [if_neg r5]
  by_cases r6 : q < 127
  · rw [if_pos r6, testBit_group6 _ _ j (hblt (q - 1)) hj8]
    by_cases j6 : j < 6
    · rw [if_pos j6, if_neg (by omega), quadInBit]
      have i1 : (p / 256 * 254 + p % 256) / 8 = q - 1 := by omega
      have i2 : (p / 256 * 254 + p % 256) % 8 = 2 + j := by omega
      rw [i1, i2]
    · rw [if_neg j6, if_neg (by omega), quadInBit]
      have i1 : (p / 256 * 254 + p % 256) / 8 = q := by omega
      have i2 : (p / 256 * 254 + p % 256) % 8 = j - 6 := by omega
      rw [i1, i2]
  · rw [if_neg r6, Nat.testBit_shiftRight]
    have hq127 : q = 127 := by omega
    by_cases j6 : j < 6
    · rw [if_neg (by omega), quadInBit]
      have i1 : (p / 256 * 254 + p % 256) / 8 = 126 := by omega
      have i2 : (p / 256 * 254 + p % 256) % 8 = 2 + j := by omega
      rw [i1, i2]
    · rw [if_pos (by omega)]
      exact testBit_hi_false _ (hblt 126) _ (by omega)

theorem fr32_expansion_correct_witness :
    (List.range 127).length = 127 ∧ (∀ x ∈ List.range 127, x < 256) ∧
    quadOutBit (List.range 127) 300 =
      (if 254 ≤ 300 % 256 then false
       else quadInBit (List.range 127) (300 / 256 * 254 + 300 % 256)) :=
  ⟨by decide, by decide,
    (fr32_expansion_correct (List.range 127) (by decide) (by decide)).2 300 (by decide)⟩

/-- Truncation step d[31] &= 0x3F applied after every SHA-256 output used
as a node (hash254Into, hashSlab254, init, PadCommP). -/
def mask31 (l : List Nat) : List Nat :=
  l.set 31 (l.getD 31 0 &&& 0x3F)

/-- Pairing hash of two 32-byte nodes: SHA256(x ‖ y) with the top two bits
of byte 31 cleared (hash254Into). The SHA-256 primitive H is an abstract
parameter, the only cryptographic dependency of the package. -/
def hash2 (H : List Nat → List Nat) (x y : List Nat) : List Nat :=
  mask31 (H (x ++ y))

/-- stackedNulPadding tower from init: entry 0 is 32 zero bytes, entry i+1
is the truncated hash of entry i repeated twice. -/
def nulPad (H : List Nat → List Nat) : Nat → List Nat
  | 0 => List.replicate 32 0
  | i + 1 => mask31 (H (nulPad H i ++ nulPad H i))

/-- One pass of a layer worker over its queue, in FIFO order: adjacent
nodes are paired and hashed; a trailing unpaired node is paired with the
nul-padding entry of this layer (the close branch of addLayer). -/
def pairUp (H : List Nat → List Nat) (idx : Nat) : List (List Nat) → List (List Nat)
  | [] => []
  | [x] => [hash2 H x (nulPad H idx)]
  | x :: y :: rest => hash2 H x y :: pairUp H idx rest

/-- Sequential semantics of the layer pipeline: nodes entering layer idx
are reduced layer by layer until a single node, the root, remains. A layer
that receives a single node and never emitted a parent publishes that node
as the result (the I-am-last branch of addLayer). The fuel mirrors the
fixed layerQueues array of MaxLayers + 2 channels. -/
def collapse (H : List Nat → List Nat) : Nat → Nat → List (List Nat) → List Nat
  | 0, _, ns => ns.headD []
  | fuel + 1, idx, ns =>
      if ns.length ≤ 1 then ns.headD []
      else collapse H fuel (idx + 1) (pairUp H idx ns)

/-- Splitting a payload stream into k consecutive 127-byte quads, as the
Digest flush loop does 127 bytes at a time. -/
def toQuadsN : Nat → List Nat → List (List Nat)
  | 0, _ => []
  | k + 1, s => s.take 127 :: toQuadsN k (s.drop 127)

/-- The four 32-byte Fr32 leaves of one quad, in emission order. -/
def quadLeaves (q : List Nat) : List (List Nat) :=
  [(fr32Quad q).take 32, ((fr32Quad q).drop 32).take 32,
   ((fr32Quad q).drop 64).take 32, (fr32Quad q).drop 96]

/-- Leaf stream entering layer 0 for a payload stream whose length is a
multiple of 127. -/
def leavesOf (s : List Nat) : List (List Nat) :=
  ((toQuadsN (s.length / 127) s).map quadLeaves).flatten

/-- Go bits.OnesCount64 on a value below 2 to the 64, by 64 halving steps. -/
def popCountAux : Nat → Nat → Nat
  | 0, _ => 0
  | f + 1, x => if x = 0 then 0 else popCountAux f (x / 2) + x % 2

/-- Population count of a uint64. -/
def onesCount64 (x : Nat) : Nat := popCountAux 64 x

/-- Go bits.Len64 (minimal bit width) on a value below 2 to the 64. -/
def len64Aux : Nat → Nat → Nat
  | 0, _ => 0
  | f + 1, x => if x = 0 then 0 else len64Aux f (x / 2) + 1

/-- Bit length of a uint64. -/
def len64 (x : Nat) : Nat := len64Aux 64 x

/-- Go bits.LeadingZeros64. -/
def leadingZeros64 (x : Nat) : Nat := 64 - len64 x

/-- Go bits.TrailingZeros64 (64 on input 0). -/
def tz64Aux : Nat → Nat → Nat
  | 0, _ => 0
  | f + 1, x => if x % 2 = 1 then 0 else tz64Aux f (x / 2) + 1

/-- Trailing zero count of a uint64. -/
def trailingZeros64 (x : Nat) : Nat :=
  if x = 0 then 64 else tz64Aux 64 x

/-- State of a Calc accumulator: fed is the byte stream already handed to
digestQuads (always a multiple of 127 bytes, so quadsEnqueued is
fed.length / 127); buffer mirrors the Go buffer slice, with none standing
for the nil slice of a zero-initialized Calc. -/
structure CalcSt where
  fed : List Nat
  buffer : Option (List Nat)
  deriving Repr, DecidableEq

/-- Zero value of the Calc object: no quads enqueued, nil buffer. -/
def zeroCalc : CalcSt := ⟨[], none⟩

/-- The for-loop of Write that digests full buffer-sized slabs directly
from the input; fuel bounds the iteration count (any fuel at least the
input length is enough). -/
def feedSlabs : Nat → List Nat → List Nat → List Nat × List Nat
  | 0, fed, input => (fed, input)
  | f + 1, fed, input =>
      if bufferSize ≤ input.length then
        feedSlabs f (fed ++ input.take bufferSize) (input.drop bufferSize)
      else (fed, input)

/-- Write of part_001 (lines 172-224): a zero-length write is a no-op; a
write that would push quadsEnqueued*127 + len(input) beyond MaxPiecePayload
fails with the overflow error and changes nothing; otherwise the input is
spliced through the internal buffer, full buffers and full slabs are
digested, and the remainder is buffered. Returns the accepted count. -/
def writeGo (st : CalcSt) (input : List Nat) : Except Unit (Nat × CalcSt) :=
  if input.length = 0 then .ok (0, st)
  else if MaxPiecePayload < st.fed.length / 127 * quadPayload + input.length then .error ()
  else
    let buf := st.buffer.getD []
    if buf.length + input.length < bufferSize then
      .ok (input.length, ⟨st.fed, some (buf ++ input)⟩)
    else
      let fed1 := if bufferSize - buf.length < bufferSize
        then st.fed ++ (buf ++ input.take (bufferSize - buf.length)) else st.fed
      let rest1 := if bufferSize - buf.length < bufferSize
        then input.drop (bufferSize - buf.length) else input
      let out := feedSlabs rest1.length fed1 rest1
      .ok (input.length, ⟨out.1, some out.2⟩)

/-- Digest of part_001 (lines 119-162): errors (leaving the state intact)
when fewer than MinPiecePayload bytes were processed; otherwise pads the
buffer with zeroes to a whole quad, flushes it, computes the padded piece
size from the final quad count rounded up to a power of two, and returns
the pipeline root together with the reset state. -/
def digestGo (H : List Nat → List Nat) (st : CalcSt) :
    Except Unit (List Nat × Nat) × CalcSt :=
  let buf := st.buffer.getD []
  let processed := st.fed.length / 127 * quadPayload + buf.length
  if processed < MinPiecePayload then (.error (), st)
  else
    let buf2 := if buf.length % quadPayload ≠ 0
      then buf ++ List.replicate (quadPayload - buf.length % quadPayload) 0 else buf
    let stream := st.fed ++ buf2
    let pps0 := stream.length / 127 * 128 % 2 ^ 64
    let pps := if onesCount64 pps0 ≠ 1 then 1 <<< (64 - leadingZeros64 pps0) % 2 ^ 64
      else pps0
    (.ok (collapse H (MaxLayers + 2) 0 (leavesOf stream), pps), zeroCalc)

/-- The extension loop of PadCommP: for ; s < t; s++ the commitment is
hashed with stackedNulPadding[s-5] and truncated; fuel is the remaining
iteration count t - s. -/
def padLoopN (H : List Nat → List Nat) : Nat → Nat → List Nat → List Nat
  | 0, _, out => out
  | k + 1, s, out => padLoopN H k (s + 1) (hash2 H out (nulPad H (s - 5)))

/-- PadCommP of part_001 (lines 352-394): validates the argument sizes,
returns the source unchanged when the sizes coincide, and otherwise copies
the source and extends it level by level with the nul-padding tower. -/
def padCommPGo (H : List Nat → List Nat) (sourceCommP : List Nat)
    (sourcePaddedSize targetPaddedSize : Nat) : Except Unit (List Nat) :=
  if sourceCommP.length ≠ 32 then .error ()
  else if onesCount64 sourcePaddedSize ≠ 1 then .error ()
  else if onesCount64 targetPaddedSize ≠ 1 then .error ()
  else if targetPaddedSize < sourcePaddedSize then .error ()
  else if sourcePaddedSize < 128 then .error ()
  else if MaxPieceSize < targetPaddedSize then .error ()
  else if sourcePaddedSize = targetPaddedSize then .ok sourceCommP
  else
    let out := sourceCommP.take 32
    let s := trailingZeros64 sourcePaddedSize
    let t := trailingZeros64 targetPaddedSize
    .ok (padLoopN H (t - s) s out)

/-- Canonical state of the accumulator after the byte stream S has been
accepted: the largest whole number of full buffers has been digested, the
remainder sits in the buffer (nil only when nothing was ever written). -/
def mkSt (S : List Nat) : CalcSt :=
  if S.length = 0 then zeroCalc
  else ⟨S.take (S.length - S.length % bufferSize),
        some (S.drop (S.length - S.length % bufferSize))⟩

lemma bufferSize_val : bufferSize = 32512 := rfl

lemma feedSlabs_spec : ∀ (f : Nat) (fed input : List Nat), input.length ≤ f →
    feedSlabs f fed input =
      (fed ++ input.take (input.length / bufferSize * bufferSize),
       input.drop (input.length / bufferSize * bufferSize)) := by
  intro f
  induction f with
  | zero =>
      intro fed input hl
      have : input = [] := by
        cases input with
        | nil => rfl
        | cons a t => simp at hl
      subst this
      simp [feedSlabs]
  | succ f ih =>
      intro fed input hl
      have hBe := bufferSize_val
      rw [feedSlabs]
      by_cases hB : bufferSize ≤ input.length
      · rw [if_pos hB, ih _ _ (by simp only [List.length_drop]; omega)]
        have hlen : (input.drop bufferSize).length = input.length - bufferSize := by simp
        rw [hlen, Prod.mk.injEq]
        have harith : bufferSize + (input.length - bufferSize) / bufferSize * bufferSize
            = input.length / bufferSize * bufferSize := by
          simp only [hBe] at hB ⊢
          omega
        refine ⟨?_, ?_⟩
        · rw [List.append_assoc, ← List.take_add, harith]
        · rw [List.drop_drop, harith]
      · rw [if_neg hB]
        have h0 : input.length / bufferSize = 0 := Nat.div_eq_of_lt (by omega)
        simp [h0]

lemma mkSt_fed_len (S : List Nat) :
    (mkSt S).fed.length = S.length - S.length % bufferSize := by
  rw [mkSt]
  by_cases h : S.length = 0
  · rw [if_pos h, h]
    simp [zeroCalc]
  · rw [if_neg h]
    simp only [List.length_take]
    have := Nat.mod_le S.length bufferSize
    omega

lemma mkSt_buf (S : List Nat) :
    (mkSt S).buffer.getD [] = S.drop (S.length - S.length % bufferSize) := by
  rw [mkSt]
  by_cases h : S.length = 0
  · rw [if_pos h]
    have hS : S = [] := by cases S <;> simp_all
    subst hS
    rfl
  · rw [if_neg h]
    rfl

lemma mkSt_buf_len (S : List Nat) :
    ((mkSt S).buffer.getD []).length = S.length % bufferSize := by
  rw [mkSt_buf]
  simp only [List.length_drop]
  have := Nat.mod_le S.length bufferSize
  omega

lemma mkSt_fed (S : List Nat) :
    (mkSt S).fed = S.take (S.length - S.length % bufferSize) := by
  rw [mkSt]
  by_cases h : S.length = 0
  · rw [if_pos h]
    have hS : S = [] := by cases S <;> simp_all
    subst hS
    rfl
  · rw [if_neg h]

lemma take_append_add (S c : List Nat) (x : Nat) :
    (S ++ c).take (S.length + x) = S ++ c.take x := by
  rw [List.take_append_eq_append_take]
  rw [List.take_of_length_le (by omega), Nat.add_sub_cancel_left]

lemma drop_append_add (S c : List Nat) (x : Nat) :
    (S ++ c).drop (S.length + x) = c.drop x := by
  rw [List.drop_append_eq_append_drop]
  rw [List.drop_eq_nil_of_le (by omega)]
  simp only [List.nil_append]
  rw [Nat.add_sub_cancel_left]

lemma MaxPiecePayload_val : MaxPiecePayload = 68182605824 := rfl

lemma writeGo_mkSt (S c : List Nat) (hc : c ≠ [])
    (hmax : S.length - S.length % bufferSize + c.length ≤ MaxPiecePayload) :
    writeGo (mkSt S) c = .ok (c.length, mkSt (S ++ c)) := by
  have hBe := bufferSize_val
  have hcm : 0 < c.length := List.length_pos.2 hc
  have hmod := Nat.mod_le S.length bufferSize
  have hmodlt : S.length % bufferSize < bufferSize := Nat.mod_lt _ (by rw [hBe]; omega)
  unfold writeGo
  simp only []
  rw [if_neg (by omega)]
  have hfl := mkSt_fed_len S
  have hfed127 : (mkSt S).fed.length / 127 * quadPayload = (mkSt S).fed.length := by
    rw [quadPayload, hfl]
    simp only [hBe] at hmod hmodlt ⊢
    omega
  rw [if_neg (by rw [hfed127, hfl]; omega)]
  rw [mkSt_buf S]
  have hdlen : (S.drop (S.length - S.length % bufferSize)).length
      = S.length % bufferSize := by
    simp only [List.length_drop]
    omega
  rw [hdlen]
  have hlen0 : ¬((S ++ c).length = 0) := by simp only [List.length_append]; omega
  by_cases hshort : S.length % bufferSize + c.length < bufferSize
  · rw [if_pos hshort, mkSt_fed S, mkSt, if_neg hlen0]
    simp only [Except.ok.injEq, Prod.mk.injEq, CalcSt.mk.injEq, Option.some.injEq]
    have hK : (S ++ c).length - (S ++ c).length % bufferSize
        = S.length - S.length % bufferSize := by
      simp only [List.length_append, hBe] at *
      omega
    refine ⟨True.intro, ?_, ?_⟩
    · rw [hK, List.take_append_eq_append_take,
        show S.length - S.length % bufferSize - S.length = 0 by omega]
      simp
    · rw [hK, List.drop_append_eq_append_drop,
        show S.length - S.length % bufferSize - S.length = 0 by omega]
      simp
  · rw [if_neg hshort, mkSt_fed S, mkSt, if_neg hlen0]
    by_cases hbl : S.length % bufferSize = 0
    · have hcond : ¬(bufferSize - S.length % bufferSize < bufferSize) := by omega
      simp only [if_neg hcond]
      rw [feedSlabs_spec _ _ _ (le_refl _)]
      simp only [Except.ok.injEq, Prod.mk.injEq, CalcSt.mk.injEq, Option.some.injEq]
      have htk : S.take (S.length - S.length % bufferSize) = S := by
        rw [hbl, Nat.sub_zero, List.take_length]
      have hK : (S ++ c).length - (S ++ c).length % bufferSize
          = S.length + c.length / bufferSize * bufferSize := by
        simp only [List.length_append, hBe] at *
        omega
      refine ⟨True.intro, ?_, ?_⟩
      · rw [htk, hK, take_append_add]
      · rw [hK, drop_append_add]
    · have hcond : bufferSize - S.length % bufferSize < bufferSize := by omega
      simp only [if_pos hcond]
      rw [feedSlabs_spec _ _ _ (le_refl _)]
      simp only [List.length_drop, Except.ok.injEq, Prod.mk.injEq, CalcSt.mk.injEq,
        Option.some.injEq]
      have hfix : S.take (S.length - S.length % bufferSize) ++
          (S.drop (S.length - S.length % bufferSize) ++
            c.take (bufferSize - S.length % bufferSize))
          = S ++ c.take (bufferSize - S.length % bufferSize) := by
        rw [← List.append_assoc, List.take_append_drop]
      have hK : (S ++ c).length - (S ++ c).length % bufferSize
          = S.length + ((bufferSize - S.length % bufferSize) +
            (c.length - (bufferSize - S.length % bufferSize)) / bufferSize * bufferSize) := by
        simp only [List.length_append, hBe] at *
        omega
      refine ⟨True.intro, ?_, ?_⟩
      · rw [hfix, List.append_assoc, ← List.take_add, hK, take_append_add]
      · rw [List.drop_drop, hK, drop_append_add]

lemma popCountAux_zero : ∀ f, popCountAux f 0 = 0 := by
  intro f; cases f <;> simp [popCountAux]

lemma popCountAux_eq_zero : ∀ f x, x < 2 ^ f → (popCountAux f x = 0 ↔ x = 0) := by
  intro f
  induction f with
  | zero =>
      intro x hx
      interval_cases x
      simp [popCountAux]
  | succ f ih =>
      intro x hx
      rw [popCountAux]
      by_cases h0 : x = 0
      · simp [h0]
      · rw [if_neg h0]
        constructor
        · intro h
          have h1 : popCountAux f (x / 2) = 0 := by omega
          have := (ih (x / 2) (by omega)).1 h1
          omega
        · intro h
          exact absurd h h0

lemma popCountAux_pow2 : ∀ f k, k < f → popCountAux f (2 ^ k) = 1 := by
  intro f
  induction f with
  | zero => intro k hk; omega
  | succ f ih =>
      intro k hk
      have hpos : 0 < 2 ^ k := Nat.pos_pow_of_pos k (by norm_num)
      rw [popCountAux, if_neg (by omega)]
      cases k with
      | zero => simp [popCountAux_zero]
      | succ k =>
          have hdiv : 2 ^ (k + 1) / 2 = 2 ^ k := by
            rw [pow_succ]
            omega
          have hmod : 2 ^ (k + 1) % 2 = 0 := by
            rw [pow_succ]
            omega
          rw [hdiv, hmod, ih k (by omega)]

lemma popCountAux_eq_one : ∀ f x, x < 2 ^ f → popCountAux f x = 1 → ∃ k, x = 2 ^ k := by
  intro f
  induction f with
  | zero =>
      intro x hx h
      interval_cases x
      simp [popCountAux] at h
  | succ f ih =>
      intro x hx h
      rw [popCountAux] at h
      by_cases h0 : x = 0
      · rw [if_pos h0] at h
        omega
      · rw [if_neg h0] at h
        by_cases hodd : x % 2 = 1
        · have hz : popCountAux f (x / 2) = 0 := by omega
          have hx2 : x / 2 = 0 := (popCountAux_eq_zero f (x / 2) (by omega)).1 hz
          exact ⟨0, by omega⟩
        · have h1 : popCountAux f (x / 2) = 1 := by omega
          obtain ⟨k, hk⟩ := ih (x / 2) (by omega) h1
          refine ⟨k + 1, ?_⟩
          have : 2 ^ (k + 1) = 2 ^ k * 2 := pow_succ 2 k
          omega

lemma len64Aux_zero : ∀ f, len64Aux f 0 = 0 := by
  intro f; cases f <;> simp [len64Aux]

lemma len64Aux_bounds : ∀ f x, x < 2 ^ f → x ≠ 0 →
    1 ≤ len64Aux f x ∧ 2 ^ (len64Aux f x - 1) ≤ x ∧ x < 2 ^ len64Aux f x := by
  intro f
  induction f with
  | zero =>
      intro x hx hx0
      omega
  | succ f ih =>
      intro x hx hx0
      rw [len64Aux, if_neg hx0]
      by_cases h2 : x / 2 = 0
      · have hx1 : x = 1 := by omega
        rw [h2, len64Aux_zero]
        subst hx1
        norm_num
      · have hx2f : x / 2 < 2 ^ f := by
          have hp : 2 ^ (f + 1) = 2 ^ f * 2 := pow_succ 2 f
          omega
        obtain ⟨hL1, hlo, hhi⟩ := ih (x / 2) hx2f h2
        have e1 : 2 ^ (len64Aux f (x / 2) - 1 + 1) = 2 ^ (len64Aux f (x / 2) - 1) * 2 :=
          pow_succ 2 _
        have e2 : len64Aux f (x / 2) - 1 + 1 = len64Aux f (x / 2) := by omega
        rw [e2] at e1
        have e3 : 2 ^ (len64Aux f (x / 2) + 1) = 2 ^ len64Aux f (x / 2) * 2 := pow_succ 2 _
        refine ⟨by omega, ?_, by omega⟩
        rw [show len64Aux f (x / 2) + 1 - 1 = len64Aux f (x / 2) by omega]
        omega

lemma tz64Aux_pow2 : ∀ f k, k < f → tz64Aux f (2 ^ k) = k := by
  intro f
  induction f with
  | zero => intro k hk; omega
  | succ f ih =>
      intro k hk
      cases k with
      | zero => simp [tz64Aux]
      | succ k =>
          have hdiv : 2 ^ (k + 1) / 2 = 2 ^ k := by
            rw [pow_succ]
            omega
          have hmod : 2 ^ (k + 1) % 2 = 0 := by
            rw [pow_succ]
            omega
          rw [tz64Aux, if_neg (by omega), hdiv, ih k (by omega)]

lemma trailingZeros64_pow2 (k : Nat) (hk : k < 64) : trailingZeros64 (2 ^ k) = k := by
  have hpos : 0 < 2 ^ k := Nat.pos_pow_of_pos k (by norm_num)
  rw [trailingZeros64, if_neg (by omega), tz64Aux_pow2 64 k hk]

lemma onesCount64_pow2 (k : Nat) (hk : k < 64) : onesCount64 (2 ^ k) = 1 :=
  popCountAux_pow2 64 k hk

lemma onesCount64_eq_one (x : Nat) (hx : x < 2 ^ 64) (h : onesCount64 x = 1) :
    ∃ k, x = 2 ^ k :=
  popCountAux_eq_one 64 x hx h

lemma goRound_spec (x : Nat) (h1 : 1 ≤ x) (h64 : x < 2 ^ 63) :
    ∃ K, (if onesCount64 x ≠ 1 then 1 <<< (64 - leadingZeros64 x) % 2 ^ 64 else x)
        = 2 ^ K ∧ (K = 0 ∨ 2 ^ (K - 1) < x) ∧ x ≤ 2 ^ K := by
  by_cases hpow : ∃ k, x = 2 ^ k
  · obtain ⟨k, hk⟩ := hpow
    have hk64 : k < 64 := by
      by_contra hcon
      have : 2 ^ 64 ≤ 2 ^ k := Nat.pow_le_pow_right (by norm_num) (by omega)
      have h2 : (2:Nat) ^ 63 < 2 ^ 64 := by norm_num
      omega
    have hones : onesCount64 x = 1 := hk ▸ onesCount64_pow2 k hk64
    refine ⟨k, ?_, ?_, by omega⟩
    · rw [if_neg (by omega), hk]
    · rcases Nat.eq_zero_or_pos k with h | h
      · exact Or.inl h
      · refine Or.inr ?_
        have : 2 ^ (k - 1) < 2 ^ k := Nat.pow_lt_pow_right (by norm_num) (by omega)
        omega
  · have hones : onesCount64 x ≠ 1 := by
      intro hcon
      have h2 : (2:Nat) ^ 63 < 2 ^ 64 := Nat.pow_lt_pow_right (by norm_num) (by omega)
      exact hpow (onesCount64_eq_one x (by omega) hcon)
    have h2 : (2:Nat) ^ 63 < 2 ^ 64 := Nat.pow_lt_pow_right (by norm_num) (by omega)
    obtain ⟨hL1, hlo, hhi⟩ := len64Aux_bounds 64 x (by omega) (by omega)
    have hL63 : len64Aux 64 x ≤ 63 := by
      by_contra hcon
      have : 2 ^ 63 ≤ 2 ^ (len64Aux 64 x - 1) := Nat.pow_le_pow_right (by norm_num) (by omega)
      omega
    refine ⟨len64 x, ?_, ?_, by exact le_of_lt hhi⟩
    · rw [if_pos hones]
      rw [leadingZeros64, len64]
      rw [show 64 - (64 - len64Aux 64 x) = len64Aux 64 x by omega]
      rw [Nat.shiftLeft_eq, one_mul]
      have hlt : (2:Nat) ^ len64Aux 64 x < 2 ^ 64 :=
        Nat.pow_lt_pow_right (by norm_num) (by omega)
      rw [Nat.mod_eq_of_lt hlt]
    · refine Or.inr ?_
      rw [len64]
      rcases Nat.lt_or_ge (2 ^ (len64Aux 64 x - 1)) x with h | h
      · exact h
      · exfalso
        exact hpow ⟨len64Aux 64 x - 1, by omega⟩

lemma MinPiecePayload_val : MinPiecePayload = 65 := rfl

lemma quadPayload_val : quadPayload = 127 := rfl

lemma digestGo_insufficient (H : List Nat → List Nat) (S : List Nat)
    (h : S.length < 65) :
    digestGo H (mkSt S) = (.error (), mkSt S) := by
  have hBe := bufferSize_val
  have hmod := Nat.mod_le S.length bufferSize
  unfold digestGo
  simp only []
  have hp : (mkSt S).fed.length / 127 * quadPayload + ((mkSt S).buffer.getD []).length
      = S.length := by
    rw [mkSt_fed_len, mkSt_buf_len, quadPayload_val]
    simp only [hBe] at hmod ⊢
    omega
  rw [hp, if_pos (by rw [MinPiecePayload_val]; omega)]

lemma digestGo_mkSt (H : List Nat → List Nat) (S : List Nat) (h65 : 65 ≤ S.length)
    (hmax : S.length ≤ MaxPiecePayload) :
    digestGo H (mkSt S) =
      (.ok (collapse H (MaxLayers + 2) 0
          (leavesOf (S ++ List.replicate ((S.length + 126) / 127 * 127 - S.length) 0)),
        if onesCount64 ((S.length + 126) / 127 * 128) ≠ 1
        then 1 <<< (64 - leadingZeros64 ((S.length + 126) / 127 * 128)) % 2 ^ 64
        else (S.length + 126) / 127 * 128), zeroCalc) := by
  have hBe := bufferSize_val
  have hmod := Nat.mod_le S.length bufferSize
  have hmaxv := MaxPiecePayload_val ▸ hmax
  unfold digestGo
  simp only []
  have hp : (mkSt S).fed.length / 127 * quadPayload + ((mkSt S).buffer.getD []).length
      = S.length := by
    rw [mkSt_fed_len, mkSt_buf_len, quadPayload_val]
    simp only [hBe] at hmod ⊢
    omega
  rw [hp, if_neg (by rw [MinPiecePayload_val]; omega)]
  rw [mkSt_buf S, mkSt_fed S]
  have hblen : (S.drop (S.length - S.length % bufferSize)).length
      = S.length % bufferSize := by
    simp only [List.length_drop]
    omega
  rw [hblen]
  have hmm : S.length % bufferSize % quadPayload = S.length % 127 := by
    rw [quadPayload_val]
    simp only [hBe]
    omega
  rw [hmm]
  by_cases hm0 : S.length % 127 = 0
  · rw [if_neg (by omega), List.take_append_drop]
    have hpad : (S.length + 126) / 127 * 127 - S.length = 0 := by omega
    rw [hpad]
    simp only [List.replicate_zero, List.append_nil]
    have hv : S.length / 127 * 128 % 2 ^ 64 = (S.length + 126) / 127 * 128 := by
      omega
    rw [hv]
  · rw [if_pos (by omega)]
    rw [← List.append_assoc, List.take_append_drop]
    have hcnt : (S.length + 126) / 127 * 127 - S.length
        = quadPayload - S.length % 127 := by
      rw [quadPayload_val]
      omega
    rw [hcnt]
    have hlen2 : (S ++ List.replicate (quadPayload - S.length % 127) 0).length / 127 * 128
          % 2 ^ 64 = (S.length + 126) / 127 * 128 := by
      simp only [List.length_append, List.length_replicate, quadPayload_val]
      omega
    rw [hlen2]

lemma mask31_length (l : List Nat) : (mask31 l).length = l.length := by
  simp [mask31]

lemma hash2_length (H : List Nat → List Nat) (hH : ∀ x, (H x).length = 32)
    (x y : List Nat) : (hash2 H x y).length = 32 := by
  simp [hash2, mask31_length, hH]

lemma nulPad_length (H : List Nat → List Nat) (hH : ∀ x, (H x).length = 32) :
    ∀ i, (nulPad H i).length = 32 := by
  intro i
  cases i with
  | zero => simp [nulPad]
  | succ i => simp [nulPad, mask31_length, hH]

lemma pairUp_length (H : List Nat → List Nat) (idx : Nat) :
    ∀ ns, (pairUp H idx ns).length = (ns.length + 1) / 2
  | [] => by simp [pairUp]
  | [x] => by simp [pairUp]
  | x :: y :: rest => by
      rw [pairUp]
      simp only [List.length_cons, pairUp_length H idx rest]
      omega

lemma pairUp_mem_length (H : List Nat → List Nat) (hH : ∀ x, (H x).length = 32)
    (idx : Nat) : ∀ ns, (∀ x ∈ ns, x.length = 32) →
      ∀ y ∈ pairUp H idx ns, y.length = 32
  | [] => by simp [pairUp]
  | [x] => by
      intro h y hy
      simp only [pairUp, List.mem_singleton] at hy
      subst hy
      exact hash2_length H hH _ _
  | x :: y :: rest => by
      intro h z hz
      rw [pairUp] at hz
      rcases List.mem_cons.1 hz with h1 | h1
      · subst h1
        exact hash2_length H hH _ _
      · exact pairUp_mem_length H hH idx rest
          (fun w hw => h w (by simp [hw])) z h1

lemma collapse_length (H : List Nat → List Nat) (hH : ∀ x, (H x).length = 32) :
    ∀ (f idx : Nat) (ns : List (List Nat)), ns ≠ [] →
      (∀ x ∈ ns, x.length = 32) → (collapse H f idx ns).length = 32 := by
  intro f
  induction f with
  | zero =>
      intro idx ns hne hall
      cases ns with
      | nil => exact absurd rfl hne
      | cons a t => exact hall a (by simp)
  | succ f ih =>
      intro idx ns hne hall
      rw [collapse]
      by_cases hle : ns.length ≤ 1
      · rw [if_pos hle]
        cases ns with
        | nil => exact absurd rfl hne
        | cons a t => exact hall a (by simp)
      · rw [if_neg hle]
        refine ih (idx + 1) _ ?_ (pairUp_mem_length H hH idx ns hall)
        have := pairUp_length H idx ns
        intro hcon
        rw [hcon] at this
        simp at this
        omega

lemma toQuadsN_mem_length : ∀ (k : Nat) (s : List Nat), s.length = 127 * k →
    ∀ q ∈ toQuadsN k s, q.length = 127 := by
  intro k
  induction k with
  | zero =>
      intro s h q hq
      simp [toQuadsN] at hq
  | succ k ih =>
      intro s h q hq
      rw [toQuadsN] at hq
      rcases List.mem_cons.1 hq with h1 | h1
      · subst h1
        simp only [List.length_take]
        omega
      · exact ih (s.drop 127) (by simp only [List.length_drop]; omega) q h1

lemma quadLeaves_mem_length (q : List Nat) (hq : q.length = 127) :
    ∀ l ∈ quadLeaves q, l.length = 32 := by
  have h128 := fr32Quad_length q hq
  have t1 : ((fr32Quad q).take 32).length = 32 := by simp [h128]
  have t2 : (((fr32Quad q).drop 32).take 32).length = 32 := by simp [h128]
  have t3 : (((fr32Quad q).drop 64).take 32).length = 32 := by simp [h128]
  have t4 : ((fr32Quad q).drop 96).length = 32 := by simp [h128]
  intro l hl
  rw [quadLeaves] at hl
  rcases List.mem_cons.1 hl with h | hl
  · rw [h]; exact t1
  rcases List.mem_cons.1 hl with h | hl
  · rw [h]; exact t2
  rcases List.mem_cons.1 hl with h | hl
  · rw [h]; exact t3
  rcases List.mem_cons.1 hl with h | hl
  · rw [h]; exact t4
  · exact absurd hl (List.not_mem_nil l)

lemma leavesOf_mem_length (s : List Nat) (hs : s.length % 127 = 0) :
    ∀ l ∈ leavesOf s, l.length = 32 := by
  intro l hl
  rw [leavesOf] at hl
  rw [List.mem_flatten] at hl
  obtain ⟨sub, hsub, hlsub⟩ := hl
  rw [List.mem_map] at hsub
  obtain ⟨q, hq, rfl⟩ := hsub
  exact quadLeaves_mem_length q
    (toQuadsN_mem_length (s.length / 127) s (by omega) q hq) l hlsub

lemma leavesOf_len_aux : ∀ (k : Nat) (s : List Nat),
    (((toQuadsN k s).map quadLeaves).flatten).length = 4 * k := by
  intro k
  induction k with
  | zero => intro s; simp [toQuadsN]
  | succ k ih =>
      intro s
      rw [toQuadsN]
      simp only [List.map_cons, List.flatten_cons, List.length_append, ih]
      simp [quadLeaves]
      omega

lemma leavesOf_length (s : List Nat) : (leavesOf s).length = 4 * (s.length / 127) :=
  leavesOf_len_aux (s.length / 127) s

/-- Sequence of Write calls, aborting on the first error, as a caller
issuing the chunks in order would experience. -/
def writesGo : CalcSt → List (List Nat) → Except Unit CalcSt
  | st, [] => .ok st
  | st, c :: rest =>
      match writeGo st c with
      | .error e => .error e
      | .ok r => writesGo r.2 rest

lemma writeGo_nil (st : CalcSt) : writeGo st [] = .ok (0, st) := by
  unfold writeGo
  simp

lemma mkSt_nil : mkSt [] = zeroCalc := rfl

lemma writesGo_mkSt : ∀ (chunks : List (List Nat)) (S : List Nat),
    S.length + chunks.flatten.length ≤ MaxPiecePayload →
    writesGo (mkSt S) chunks = .ok (mkSt (S ++ chunks.flatten)) := by
  intro chunks
  induction chunks with
  | nil =>
      intro S h
      simp [writesGo]
  | cons c rest ih =>
      intro S h
      rw [writesGo]
      by_cases hc : c = []
      · subst hc
        rw [writeGo_nil]
        simp only []
        rw [ih S (by simpa using h)]
        simp
      · rw [writeGo_mkSt S c hc
          (by have := Nat.mod_le S.length bufferSize
              simp only [List.flatten_cons, List.length_append] at h
              omega)]
        simp only []
        rw [ih (S ++ c)
          (by simp only [List.flatten_cons, List.length_append] at h ⊢; omega)]
        simp [List.append_assoc]

/-- Claim C3: writing any partition of a byte sequence chunk by chunk and
digesting yields exactly the same state, commitment and padded piece size
as a single Write of the whole sequence followed by Digest. -/
theorem chunked_digest_independence (H : List Nat → List Nat)
    (chunks : List (List Nat)) (hmax : chunks.flatten.length ≤ MaxPiecePayload) :
    writesGo zeroCalc chunks = writesGo zeroCalc [chunks.flatten] ∧
    (writesGo zeroCalc chunks).map (fun st => (digestGo H st).1)
      = (writesGo zeroCalc [chunks.flatten]).map (fun st => (digestGo H st).1) := by
  have h1 : writesGo zeroCalc chunks = .ok (mkSt chunks.flatten) := by
    have := writesGo_mkSt chunks [] (by simpa using hmax)
    rw [mkSt_nil] at this
    simpa using this
  have h2 : writesGo zeroCalc [chunks.flatten] = .ok (mkSt chunks.flatten) := by
    have := writesGo_mkSt [chunks.flatten] [] (by simpa using hmax)
    rw [mkSt_nil] at this
    simpa using this
  rw [h1, h2]
  exact ⟨rfl, rfl⟩

theorem chunked_digest_independence_witness :
    (([[0], List.replicate 64 0] : List (List Nat)).flatten.length ≤ MaxPiecePayload) ∧
    writesGo zeroCalc [[0], List.replicate 64 0]
      = writesGo zeroCalc [([[0], List.replicate 64 0] : List (List Nat)).flatten] :=
  ⟨by decide,
    (chunked_digest_independence (fun _ => List.replicate 32 0)
      [[0], List.replicate 64 0] (by decide)).1⟩

/-- Claim C4: with fewer than 65 bytes written Digest fails with the
insufficient-input error and leaves the state unchanged, so the caller can
write more and retry; with at least 65 bytes it succeeds and returns a
32-byte digest. -/
theorem digest_threshold (H : List Nat → List Nat) (hH : ∀ x, (H x).length = 32)
    (S : List Nat) (hmax : S.length ≤ MaxPiecePayload) :
    (S.length < 65 → digestGo H (mkSt S) = (.error (), mkSt S)) ∧
    (65 ≤ S.length → ∃ root pps,
      digestGo H (mkSt S) = (.ok (root, pps), zeroCalc) ∧ root.length = 32) := by
  refine ⟨fun h => digestGo_insufficient H S h, fun h65 => ?_⟩
  rw [digestGo_mkSt H S h65 hmax]
  refine ⟨_, _, rfl, ?_⟩
  have hslen : (S ++ List.replicate ((S.length + 126) / 127 * 127 - S.length) 0).length
      = (S.length + 126) / 127 * 127 := by
    simp only [List.length_append, List.length_replicate]
    omega
  apply collapse_length H hH
  · have hpos : 0 < (leavesOf
        (S ++ List.replicate ((S.length + 126) / 127 * 127 - S.length) 0)).length := by
      rw [leavesOf_length, hslen]
      omega
    exact List.ne_nil_of_length_pos hpos
  · exact leavesOf_mem_length _ (by rw [hslen]; omega)

theorem digest_threshold_witness :
    ((List.replicate 65 (0:Nat)).length ≤ MaxPiecePayload) ∧
    ((List.replicate 65 (0:Nat)).length < 65 →
      digestGo (fun _ => List.replicate 32 0) (mkSt (List.replicate 65 0))
        = (.error (), mkSt (List.replicate 65 0))) ∧
    (65 ≤ (List.replicate 65 (0:Nat)).length → ∃ root pps,
      digestGo (fun _ => List.replicate 32 0) (mkSt (List.replicate 65 0))
        = (.ok (root, pps), zeroCalc) ∧ root.length = 32) :=
  ⟨by decide, digest_threshold (fun _ => List.replicate 32 0) (fun _ => rfl)
    (List.replicate 65 0) (by decide)⟩

/-- Claim C2: every successful Digest after n written bytes returns a
padded piece size that is a power of two, at least ceil(n/127)*128, least
among powers of two above that bound, and at least 128. -/
theorem padded_size_law (H : List Nat → List Nat) (S : List Nat)
    (h65 : 65 ≤ S.length) (hmax : S.length ≤ MaxPiecePayload) :
    ∃ root pps, digestGo H (mkSt S) = (.ok (root, pps), zeroCalc) ∧
      (∃ k, pps = 2 ^ k) ∧
      (S.length + 126) / 127 * 128 ≤ pps ∧
      (∀ j, (S.length + 126) / 127 * 128 ≤ 2 ^ j → pps ≤ 2 ^ j) ∧
      128 ≤ pps := by
  rw [digestGo_mkSt H S h65 hmax]
  set v := (S.length + 126) / 127 * 128 with hv
  have hmaxv := MaxPiecePayload_val ▸ hmax
  have hv1 : 128 ≤ v := by
    rw [hv]
    omega
  have hv63 : v < 2 ^ 63 := by
    rw [hv]
    have h63 : (2:Nat) ^ 63 = 9223372036854775808 := by norm_num
    omega
  obtain ⟨K, hK, hKlo, hKhi⟩ := goRound_spec v (by omega) hv63
  refine ⟨_, _, rfl, ⟨K, hK⟩, by rw [hK]; omega, ?_, by rw [hK]; omega⟩
  intro j hj
  rw [hK]
  have hKle : K ≤ j := by
    rcases Nat.eq_zero_or_pos K with h | h
    · omega
    · rcases hKlo with h0 | h0
      · omega
      · have hlt : 2 ^ (K - 1) < 2 ^ j := lt_of_lt_of_le h0 hj
        have := (Nat.pow_lt_pow_iff_right (by norm_num : (1:Nat) < 2)).1 hlt
        omega
  exact Nat.pow_le_pow_right (by norm_num) hKle

theorem padded_size_law_witness :
    (65 ≤ (List.replicate 200 (0:Nat)).length) ∧
    ((List.replicate 200 (0:Nat)).length ≤ MaxPiecePayload) ∧
    (∃ root pps, digestGo (fun _ => List.replicate 32 0) (mkSt (List.replicate 200 0))
        = (.ok (root, pps), zeroCalc) ∧
      (∃ k, pps = 2 ^ k) ∧
      ((List.replicate 200 (0:Nat)).length + 126) / 127 * 128 ≤ pps ∧
      (∀ j, ((List.replicate 200 (0:Nat)).length + 126) / 127 * 128 ≤ 2 ^ j →
        pps ≤ 2 ^ j) ∧
      128 ≤ pps) :=
  ⟨by decide, by decide, padded_size_law (fun _ => List.replicate 32 0)
    (List.replicate 200 0) (by decide) (by decide)⟩

/-- Claim C9: the zero value of the Calc object is directly usable; the
first Write initializes the internal buffer and succeeds (the layerQueues
member is a fixed-size array in the zero value, so nothing can go out of
bounds; the model is total). -/
theorem zero_value_first_write (input : List Nat)
    (hmax : input.length ≤ MaxPiecePayload) :
    writeGo zeroCalc input = .ok (input.length, mkSt input) ∧
    (input ≠ [] → (mkSt input).buffer ≠ none) := by
  constructor
  · by_cases h : input = []
    · subst h
      rw [writeGo_nil, mkSt_nil]
      rfl
    · have := writeGo_mkSt [] input h (by simpa using hmax)
      rw [mkSt_nil] at this
      simpa using this
  · intro h
    rw [mkSt, if_neg (fun h0 => h (List.length_eq_zero.1 h0))]
    simp

theorem zero_value_first_write_witness :
    ([7, 7, 7] : List Nat).length ≤ MaxPiecePayload ∧
    writeGo zeroCalc [7, 7, 7] = .ok (([7, 7, 7] : List Nat).length, mkSt [7, 7, 7]) ∧
    (([7, 7, 7] : List Nat) ≠ [] → (mkSt [7, 7, 7]).buffer ≠ none) :=
  ⟨by decide, (zero_value_first_write [7, 7, 7] (by decide)).1,
    (zero_value_first_write [7, 7, 7] (by decide)).2⟩

/-- Extension loop of PadCommP with the mutable store made explicit: the
pair carries the out buffer and the sourceCommP buffer; each iteration
writes only through out, exactly as the Go loop body does. -/
def padLoopBuffers (H : List Nat → List Nat) :
    Nat → Nat → List Nat × List Nat → List Nat × List Nat
  | 0, _, st => st
  | k + 1, s, st => padLoopBuffers H k (s + 1) (hash2 H st.1 (nulPad H (s - 5)), st.2)

/-- PadCommP with the two byte buffers tracked explicitly: the second
component of the value is the content of the caller's sourceCommP buffer
when the function returns. Every store of the Go function (copy into the
fresh out buffer, h.Sum into out, the mask of out[31]) targets out. -/
def padCommPBuffers (H : List Nat → List Nat) (sourceCommP : List Nat)
    (sourcePaddedSize targetPaddedSize : Nat) :
    Except Unit (List Nat) × List Nat :=
  if sourceCommP.length ≠ 32 then (.error (), sourceCommP)
  else if onesCount64 sourcePaddedSize ≠ 1 then (.error (), sourceCommP)
  else if onesCount64 targetPaddedSize ≠ 1 then (.error (), sourceCommP)
  else if targetPaddedSize < sourcePaddedSize then (.error (), sourceCommP)
  else if sourcePaddedSize < 128 then (.error (), sourceCommP)
  else if MaxPieceSize < targetPaddedSize then (.error (), sourceCommP)
  else if sourcePaddedSize = targetPaddedSize then (.ok sourceCommP, sourceCommP)
  else
    let st := padLoopBuffers H
      (trailingZeros64 targetPaddedSize - trailingZeros64 sourcePaddedSize)
      (trailingZeros64 sourcePaddedSize) (sourceCommP.take 32, sourceCommP)
    (.ok st.1, st.2)

lemma padLoopBuffers_src (H : List Nat → List Nat) :
    ∀ (k s : Nat) (st : List Nat × List Nat),
      (padLoopBuffers H k s st).2 = st.2 := by
  intro k
  induction k with
  | zero => intro s st; rfl
  | succ k ih => intro s st; rw [padLoopBuffers, ih]

lemma padLoopBuffers_out (H : List Nat → List Nat) :
    ∀ (k s : Nat) (st : List Nat × List Nat),
      (padLoopBuffers H k s st).1 = padLoopN H k s st.1 := by
  intro k
  induction k with
  | zero => intro s st; rfl
  | succ k ih => intro s st; rw [padLoopBuffers, padLoopN, ih]

/-- Claim C10: PadCommP never modifies its sourceCommP argument; whether
it succeeds or fails, the source buffer holds the same bytes afterwards,
and the tracked model returns exactly what padCommPGo returns. -/
theorem padcommp_preserves_source (H : List Nat → List Nat)
    (src : List Nat) (sps tps : Nat) :
    (padCommPBuffers H src sps tps).2 = src ∧
    (padCommPBuffers H src sps tps).1 = padCommPGo H src sps tps := by
  rw [padCommPBuffers, padCommPGo]
  by_cases h1 : src.length ≠ 32
  · rw [if_pos h1, if_pos h1]; exact ⟨rfl, rfl⟩
  rw [if_neg h1, if_neg h1]
  by_cases h2 : onesCount64 sps ≠ 1
  · rw [if_pos h2, if_pos h2]; exact ⟨rfl, rfl⟩
  rw [if_neg h2, if_neg h2]
  by_cases h3 : onesCount64 tps ≠ 1
  · rw [if_pos h3, if_pos h3]; exact ⟨rfl, rfl⟩
  rw [if_neg h3, if_neg h3]
  by_cases h4 : tps < sps
  · rw [if_pos h4, if_pos h4]; exact ⟨rfl, rfl⟩
  rw [if_neg h4, if_neg h4]
  by_cases h5 : sps < 128
  · rw [if_pos h5, if_pos h5]; exact ⟨rfl, rfl⟩
  rw [if_neg h5, if_neg h5]
  by_cases h6 : MaxPieceSize < tps
  · rw [if_pos h6, if_pos h6]; exact ⟨rfl, rfl⟩
  rw [if_neg h6, if_neg h6]
  by_cases h7 : sps = tps
  · rw [if_pos h7, if_pos h7]; exact ⟨rfl, rfl⟩
  rw [if_neg h7, if_neg h7]
  simp only []
  rw [padLoopBuffers_src, padLoopBuffers_out]
  exact ⟨rfl, rfl⟩

/-- Output record of one iteration of the addLayer worker loop. -/
structure LayerOut where
  emitted : List (List Nat)
  result : Option (List Nat)
  newHold : Option (List Nat)
  closeNext : Bool
  spawnNext : Bool
  deriving Repr, DecidableEq

/-- One iteration of the addLayer worker of part_000 (lines 269-313,
identically commp.go lines 260-302 one level up): ev is the received
chunk, none meaning the input queue was closed; nextExists states whether
layerQueues[myIdx+2] is already non-nil, that is whether this layer has
ever emitted a parent. -/
def addLayerStep (H : List Nat → List Nat) (myIdx : Nat)
    (chunkHold : Option (List Nat)) (nextExists : Bool)
    (ev : Option (List Nat)) : LayerOut :=
  match ev with
  | none =>
      if myIdx = MaxLayers ∨ nextExists = false then
        { emitted := [], result := chunkHold, newHold := none,
          closeNext := false, spawnNext := false }
      else
        { emitted := match chunkHold with
            | some c => [hash2 H c (nulPad H myIdx)]
            | none => [],
          result := none, newHold := none, closeNext := true, spawnNext := false }
  | some chunk =>
      match chunkHold with
      | none =>
          { emitted := [], result := none, newHold := some chunk,
            closeNext := false, spawnNext := false }
      | some c =>
          { emitted := [hash2 H c chunk], result := none, newHold := none,
            closeNext := false, spawnNext := !nextExists }

lemma mask31_getD31_lt (l : List Nat) : (mask31 l).getD 31 0 < 64 := by
  by_cases h : 31 < l.length
  · rw [mask31, getD_set_self _ _ _ h]
    have := Nat.and_le_right (n := l.getD 31 0) (m := 0x3F)
    omega
  · rw [List.getD_eq_default]
    · norm_num
    · rw [mask31, List.length_set]
      omega

lemma hash2_getD31_lt (H : List Nat → List Nat) (x y : List Nat) :
    (hash2 H x y).getD 31 0 < 64 := mask31_getD31_lt _

/-- Claim C8: a layer worker receiving the close signal while holding one
unpaired node, when it is not the highest active layer, emits the truncated
hash of the held node paired with the nul-padding entry of its layer (entry
0 being 32 zero bytes), and then closes the next layer. -/
theorem layer_close_pairs_with_nulpad (H : List Nat → List Nat) (myIdx : Nat)
    (held : List Nat) (hne : myIdx ≠ MaxLayers) :
    addLayerStep H myIdx (some held) true none =
      { emitted := [mask31 (H (held ++ nulPad H myIdx))], result := none,
        newHold := none, closeNext := true, spawnNext := false } ∧
    (hash2 H held (nulPad H myIdx)).getD 31 0 < 64 ∧
    nulPad H 0 = List.replicate 32 0 := by
  refine ⟨?_, hash2_getD31_lt H _ _, rfl⟩
  rw [addLayerStep]
  rw [if_neg (by simp [hne])]
  rfl

theorem layer_close_pairs_with_nulpad_witness :
    (0 ≠ MaxLayers) ∧
    (addLayerStep (fun _ => List.replicate 32 5) 0 (some (List.replicate 32 1)) true none =
      { emitted := [mask31 ((fun _ => List.replicate 32 (5:Nat))
          (List.replicate 32 1 ++ nulPad (fun _ => List.replicate 32 5) 0))],
        result := none, newHold := none, closeNext := true, spawnNext := false } ∧
     (hash2 (fun _ => List.replicate 32 5) (List.replicate 32 1)
        (nulPad (fun _ => List.replicate 32 5) 0)).getD 31 0 < 64 ∧
     nulPad (fun _ => List.replicate 32 5) 0 = List.replicate 32 0) :=
  ⟨by decide, layer_close_pairs_with_nulpad (fun _ => List.replicate 32 5) 0
    (List.replicate 32 1) (by decide)⟩

lemma getD_take (l : List Nat) (n i : Nat) (h : i < n) :
    (l.take n).getD i 0 = l.getD i 0 := by
  simp [List.getD_eq_getElem?_getD, List.getElem?_take_of_lt h]

lemma getD_drop (l : List Nat) (n i : Nat) :
    (l.drop n).getD i 0 = l.getD (n + i) 0 := by
  simp [List.getD_eq_getElem?_getD]

lemma quadLeaves_getD31 (q : List Nat) (hq : q.length = 127)
    (hB : ∀ x ∈ q, x < 256) : ∀ l ∈ quadLeaves q, l.getD 31 0 < 64 := by
  have hblt : ∀ k, q.getD k 0 < 256 := getD_lt_256 q hB
  have e31 := fr32Quad_getD q hq 31 (by omega)
  have e63 := fr32Quad_getD q hq 63 (by omega)
  have e95 := fr32Quad_getD q hq 95 (by omega)
  have e127 := fr32Quad_getD q hq 127 (by omega)
  rw [fr32ByteSpec] at e31 e63 e95 e127
  rw [if_neg (by omega), if_pos rfl] at e31
  rw [if_neg (by omega), if_neg (by omega), if_neg (by omega), if_pos rfl] at e63
  rw [if_neg (by omega), if_neg (by omega), if_neg (by omega), if_neg (by omega),
    if_neg (by omega), if_pos rfl] at e95
  rw [if_neg (by omega), if_neg (by omega), if_neg (by omega), if_neg (by omega),
    if_neg (by omega), if_neg (by omega), if_neg (by omega)] at e127
  have hand : ∀ x : Nat, x &&& 0x3F < 64 := by
    intro x
    have := Nat.and_le_right (n := x) (m := 0x3F)
    omega
  have hshr : q.getD 126 0 >>> 2 < 64 := by
    rw [Nat.shiftRight_eq_div_pow]
    have := hblt 126
    omega
  have t1 : ((fr32Quad q).take 32).getD 31 0 < 64 := by
    rw [getD_take _ _ _ (by omega), e31]
    exact hand _
  have t2 : (((fr32Quad q).drop 32).take 32).getD 31 0 < 64 := by
    rw [getD_take _ _ _ (by omega), getD_drop, show 32 + 31 = 63 by omega, e63]
    exact hand _
  have t3 : (((fr32Quad q).drop 64).take 32).getD 31 0 < 64 := by
    rw [getD_take _ _ _ (by omega), getD_drop, show 64 + 31 = 95 by omega, e95]
    exact hand _
  have t4 : ((fr32Quad q).drop 96).getD 31 0 < 64 := by
    rw [getD_drop, show 96 + 31 = 127 by omega, e127]
    exact hshr
  intro l hl
  rw [quadLeaves] at hl
  rcases List.mem_cons.1 hl with h | hl
  · rw [h]; exact t1
  rcases List.mem_cons.1 hl with h | hl
  · rw [h]; exact t2
  rcases List.mem_cons.1 hl with h | hl
  · rw [h]; exact t3
  rcases List.mem_cons.1 hl with h | hl
  · rw [h]; exact t4
  · exact absurd hl (List.not_mem_nil l)

lemma toQuadsN_subset : ∀ (k : Nat) (s q : List Nat), q ∈ toQuadsN k s →
    ∀ x ∈ q, x ∈ s := by
  intro k
  induction k with
  | zero => intro s q hq; simp [toQuadsN] at hq
  | succ k ih =>
      intro s q hq x hx
      rw [toQuadsN] at hq
      rcases List.mem_cons.1 hq with h | h
      · subst h
        exact List.take_subset _ _ hx
      · exact List.drop_subset _ _ (ih (s.drop 127) q h x hx)

lemma leavesOf_getD31 (s : List Nat) (hs : s.length % 127 = 0)
    (hB : ∀ x ∈ s, x < 256) : ∀ l ∈ leavesOf s, l.getD 31 0 < 64 := by
  intro l hl
  rw [leavesOf] at hl
  rw [List.mem_flatten] at hl
  obtain ⟨sub, hsub, hlsub⟩ := hl
  rw [List.mem_map] at hsub
  obtain ⟨q, hq, rfl⟩ := hsub
  exact quadLeaves_getD31 q (toQuadsN_mem_length (s.length / 127) s (by omega) q hq)
    (fun x hx => hB x (toQuadsN_subset (s.length / 127) s q hq x hx)) l hlsub

lemma pairUp_mem_getD31 (H : List Nat → List Nat) (idx : Nat) :
    ∀ ns, ∀ y ∈ pairUp H idx ns, y.getD 31 0 < 64
  | [] => by simp [pairUp]
  | [x] => by
      intro y hy
      simp only [pairUp, List.mem_singleton] at hy
      subst hy
      exact hash2_getD31_lt H _ _
  | x :: y :: rest => by
      intro z hz
      rw [pairUp] at hz
      rcases List.mem_cons.1 hz with h1 | h1
      · subst h1
        exact hash2_getD31_lt H _ _
      · exact pairUp_mem_getD31 H idx rest z h1

lemma collapse_getD31 (H : List Nat → List Nat) :
    ∀ (f idx : Nat) (ns : List (List Nat)), ns ≠ [] →
      (∀ x ∈ ns, x.getD 31 0 < 64) → (collapse H f idx ns).getD 31 0 < 64 := by
  intro f
  induction f with
  | zero =>
      intro idx ns hne hall
      cases ns with
      | nil => exact absurd rfl hne
      | cons a t => exact hall a (by simp)
  | succ f ih =>
      intro idx ns hne hall
      rw [collapse]
      by_cases hle : ns.length ≤ 1
      · rw [if_pos hle]
        cases ns with
        | nil => exact absurd rfl hne
        | cons a t => exact hall a (by simp)
      · rw [if_neg hle]
        refine ih (idx + 1) _ ?_ (pairUp_mem_getD31 H idx ns)
        have := pairUp_length H idx ns
        intro hcon
        rw [hcon] at this
        simp at this
        omega

lemma padLoopN_getD31 (H : List Nat → List Nat) :
    ∀ (k s : Nat) (c : List Nat), (padLoopN H (k + 1) s c).getD 31 0 < 64 := by
  intro k
  induction k with
  | zero =>
      intro s c
      rw [padLoopN, padLoopN]
      exact hash2_getD31_lt H _ _
  | succ k ih =>
      intro s c
      rw [padLoopN]
      exact ih (s + 1) _

lemma nulPad_getD31 (H : List Nat → List Nat) : ∀ i, (nulPad H i).getD 31 0 < 64 := by
  intro i
  cases i with
  | zero => rw [nulPad]; decide
  | succ i => exact mask31_getD31_lt _

lemma MaxPieceSize_val : MaxPieceSize = 68719476736 := rfl

/-- Claim C6 (amended): every node the algorithm produces — Fr32 leaves,
interior hash nodes, nul-padding tower entries, and the final digest
root — has the top two bits of byte 31 clear; the result of PadCommP does
too, provided that in the size-preserving case (source padded size equal
to target, where the source slice is returned unchanged) the supplied
source commitment already satisfies the invariant. -/
theorem top_bits_invariant (H : List Nat → List Nat) :
    (∀ b, b.length = 127 → (∀ x ∈ b, x < 256) →
      ∀ l ∈ quadLeaves b, l.getD 31 0 < 64) ∧
    (∀ x y, (hash2 H x y).getD 31 0 < 64) ∧
    (∀ i, (nulPad H i).getD 31 0 < 64) ∧
    (∀ S root pps st, 65 ≤ S.length → S.length ≤ MaxPiecePayload →
      (∀ x ∈ S, x < 256) →
      digestGo H (mkSt S) = (.ok (root, pps), st) → root.getD 31 0 < 64) ∧
    (∀ src sps tps out, padCommPGo H src sps tps = .ok out →
      (sps = tps → src.getD 31 0 < 64) → out.getD 31 0 < 64) := by
  refine ⟨fun b hb hB => quadLeaves_getD31 b hb hB, hash2_getD31_lt H,
    nulPad_getD31 H, ?_, ?_⟩
  · intro S root pps st h65 hmax hB heq
    rw [digestGo_mkSt H S h65 hmax] at heq
    simp only [Prod.mk.injEq, Except.ok.injEq] at heq
    obtain ⟨⟨hroot, -⟩, -⟩ := heq
    rw [← hroot]
    have hslen : (S ++ List.replicate ((S.length + 126) / 127 * 127 - S.length) 0).length
        = (S.length + 126) / 127 * 127 := by
      simp only [List.length_append, List.length_replicate]
      omega
    apply collapse_getD31
    · have hpos : 0 < (leavesOf
          (S ++ List.replicate ((S.length + 126) / 127 * 127 - S.length) 0)).length := by
        rw [leavesOf_length, hslen]
        omega
      exact List.ne_nil_of_length_pos hpos
    · refine leavesOf_getD31 _ (by rw [hslen]; omega) ?_
      intro x hx
      rcases List.mem_append.1 hx with h | h
      · exact hB x h
      · rw [List.eq_of_mem_replicate h]
        norm_num
  · intro src sps tps out heq hsrc
    rw [padCommPGo] at heq
    by_cases h1 : src.length ≠ 32
    · rw [if_pos h1] at heq
      exact absurd heq (by simp)
    rw [if_neg h1] at heq
    by_cases h2 : onesCount64 sps ≠ 1
    · rw [if_pos h2] at heq
      exact absurd heq (by simp)
    rw [if_neg h2] at heq
    by_cases h3 : onesCount64 tps ≠ 1
    · rw [if_pos h3] at heq
      exact absurd heq (by simp)
    rw [if_neg h3] at heq
    by_cases h4 : tps < sps
    · rw [if_pos h4] at heq
      exact absurd heq (by simp)
    rw [if_neg h4] at heq
    by_cases h5 : sps < 128
    · rw [if_pos h5] at heq
      exact absurd heq (by simp)
    rw [if_neg h5] at heq
    by_cases h6 : MaxPieceSize < tps
    · rw [if_pos h6] at heq
      exact absurd heq (by simp)
    rw [if_neg h6] at heq
    by_cases h7 : sps = tps
    · rw [if_pos h7] at heq
      simp only [Except.ok.injEq] at heq
      rw [← heq]
      exact hsrc h7
    · rw [if_neg h7] at heq
      simp only [Except.ok.injEq] at heq
      rw [← heq]
      have hms := MaxPieceSize_val
      have hb64 : (68719476736:Nat) < 2 ^ 64 := by norm_num
      obtain ⟨a, ha⟩ := onesCount64_eq_one sps (by omega) (by omega)
      obtain ⟨b, hb⟩ := onesCount64_eq_one tps (by omega) (by omega)
      have ha36 : a < 64 := by
        by_contra hcon
        have : 2 ^ 64 ≤ 2 ^ a := Nat.pow_le_pow_right (by norm_num) (by omega)
        omega
      have hb36 : b < 64 := by
        by_contra hcon
        have : 2 ^ 64 ≤ 2 ^ b := Nat.pow_le_pow_right (by norm_num) (by omega)
        omega
      have hab : a < b := by
        have hlt : sps < tps := by omega
        rw [ha, hb] at hlt
        exact (Nat.pow_lt_pow_iff_right (by norm_num : (1:Nat) < 2)).1 hlt
      rw [ha, hb, trailingZeros64_pow2 a ha36, trailingZeros64_pow2 b hb36]
      rw [show b - a = (b - a - 1) + 1 by omega]
      exact padLoopN_getD31 H _ _ _

theorem top_bits_counterexample :
    padCommPGo (fun _ => List.replicate 32 0) (List.replicate 31 0 ++ [192]) 128 128
      = .ok (List.replicate 31 0 ++ [192]) ∧
    (List.replicate 31 (0:Nat) ++ [192]).getD 31 0 = 192 := by
  constructor
  · rfl
  · decide

theorem top_bits_invariant_witness :
    ((List.range 127).length = 127) ∧ (∀ x ∈ List.range 127, x < 256) ∧
    (∀ l ∈ quadLeaves (List.range 127), l.getD 31 0 < 64) ∧
    (padCommPGo (fun _ => List.replicate 32 0) (List.replicate 32 0) 128 256
      = .ok (List.replicate 32 0)) ∧
    ((List.replicate 32 (0:Nat)).getD 31 0 < 64) :=
  ⟨by decide, by decide,
    (top_bits_invariant (fun _ => List.replicate 32 0)).1 (List.range 127)
      (by decide) (by decide),
    by rfl,
    (top_bits_invariant (fun _ => List.replicate 32 0)).2.2.2.2
      (List.replicate 32 0) 128 256 (List.replicate 32 0) (by rfl)
      (fun h => by decide)⟩

/-- Claim C5 fails on the buffered Write of part_001: its overflow check
counts only quadsEnqueued*127 and ignores up to bufferSize-1 bytes already
accepted into the buffer. After two writes totalling MaxPiecePayload - 1
bytes (each passing the check that the claim sanctions), a further 2-byte
write is accepted with count 2 and no error, although the cumulative
accepted payload then exceeds MaxPiecePayload — contradicting both the
claim and the MaxPiecePayload doc comment of the source. -/
theorem write_overflow_check_bug :
    (MaxPiecePayload <
      (List.replicate (MaxPiecePayload - 1) (0:Nat)).length + ([0, 0] : List Nat).length) ∧
    writesGo zeroCalc [List.replicate (MaxPiecePayload - bufferSize) 0,
        List.replicate (bufferSize - 1) 0]
      = .ok (mkSt (List.replicate (MaxPiecePayload - 1) 0)) ∧
    writeGo (mkSt (List.replicate (MaxPiecePayload - 1) 0)) [0, 0]
      = .ok (2, mkSt (List.replicate (MaxPiecePayload - 1) 0 ++ [0, 0])) := by
  have hBe := bufferSize_val
  have hMv := MaxPiecePayload_val
  have h2 : ([0, 0] : List Nat).length = 2 := rfl
  refine ⟨?_, ?_, ?_⟩
  · rw [List.length_replicate, h2]
    omega
  · have h := writesGo_mkSt [List.replicate (MaxPiecePayload - bufferSize) 0,
      List.replicate (bufferSize - 1) 0] []
      (by rw [List.length_nil, List.flatten_cons, List.flatten_cons, List.flatten_nil,
            List.append_nil, List.length_append, List.length_replicate,
            List.length_replicate]
          omega)
    rw [mkSt_nil, List.nil_append, List.flatten_cons, List.flatten_cons,
      List.flatten_nil, List.append_nil, ← List.replicate_add,
      show MaxPiecePayload - bufferSize + (bufferSize - 1)
        = MaxPiecePayload - 1 by omega] at h
    exact h
  · exact writeGo_mkSt _ [0, 0] (by simp)
      (by rw [List.length_replicate, h2, hBe]; omega)

lemma fr32Quad_zero : fr32Quad (List.replicate 127 0) = List.replicate 128 0 := by
  decide

lemma quadLeaves_zero : quadLeaves (List.replicate 127 0)
    = List.replicate 4 (List.replicate 32 0) := by
  decide

lemma toQuadsN_append : ∀ (a b : Nat) (s t : List Nat), s.length = 127 * a →
    toQuadsN (a + b) (s ++ t) = toQuadsN a s ++ toQuadsN b t := by
  intro a
  induction a with
  | zero =>
      intro b s t hs
      have : s = [] := by
        cases s with
        | nil => rfl
        | cons x xs => simp at hs
      subst this
      simp [toQuadsN]
  | succ a ih =>
      intro b s t hs
      rw [show a + 1 + b = (a + b) + 1 by omega, toQuadsN, toQuadsN]
      rw [List.take_append_eq_append_take, show 127 - s.length = 0 by omega]
      rw [List.drop_append_eq_append_drop, show 127 - s.length = 0 by omega]
      simp only [List.take_zero, List.append_nil, List.drop_zero]
      rw [ih b (s.drop 127) t (by simp only [List.length_drop]; omega)]
      simp

lemma toQuadsN_zero_stream : ∀ (b : Nat),
    toQuadsN b (List.replicate (127 * b) 0) = List.replicate b (List.replicate 127 0) := by
  intro b
  induction b with
  | zero => simp [toQuadsN]
  | succ b ih =>
      rw [toQuadsN, List.take_replicate, List.drop_replicate]
      rw [show min 127 (127 * (b + 1)) = 127 by omega,
        show 127 * (b + 1) - 127 = 127 * b by omega, ih]
      rfl

lemma flatten_replicate_quadLeaves : ∀ (b : Nat),
    ((List.replicate b (List.replicate 127 0)).map quadLeaves).flatten
      = List.replicate (4 * b) (List.replicate 32 (0:Nat)) := by
  intro b
  induction b with
  | zero => simp
  | succ b ih =>
      rw [List.replicate_succ, List.map_cons, List.flatten_cons, ih, quadLeaves_zero]
      rw [show 4 * (b + 1) = 4 + 4 * b by omega, List.replicate_add]

lemma leavesOf_append_zeros (s : List Nat) (b : Nat) (hs : s.length % 127 = 0) :
    leavesOf (s ++ List.replicate (127 * b) 0)
      = leavesOf s ++ List.replicate (4 * b) (List.replicate 32 0) := by
  rw [leavesOf, leavesOf]
  have hlen : (s ++ List.replicate (127 * b) 0).length = s.length + 127 * b := by
    simp
  rw [hlen, show (s.length + 127 * b) / 127 = s.length / 127 + b by omega]
  rw [toQuadsN_append (s.length / 127) b s _ (by omega)]
  rw [List.map_append, List.flatten_append]
  rw [toQuadsN_zero_stream b, flatten_replicate_quadLeaves b]

lemma nulPad_succ (H : List Nat → List Nat) (i : Nat) :
    nulPad H (i + 1) = hash2 H (nulPad H i) (nulPad H i) := rfl

lemma pairUp_replicate (H : List Nat → List Nat) (idx : Nat) :
    ∀ m, pairUp H idx (List.replicate m (nulPad H idx))
      = List.replicate ((m + 1) / 2) (nulPad H (idx + 1))
  | 0 => by simp [pairUp]
  | 1 => by
      rw [List.replicate_succ, List.replicate_zero, pairUp, ← nulPad_succ]
      rfl
  | m + 2 => by
      rw [List.replicate_succ, List.replicate_succ, pairUp, pairUp_replicate H idx m]
      rw [← nulPad_succ, show (m + 2 + 1) / 2 = (m + 1) / 2 + 1 by omega]
      rfl

lemma pairUp_append_pad (H : List Nat → List Nat) (idx : Nat) :
    ∀ (ns : List (List Nat)) (m : Nat), ns ≠ [] →
      pairUp H idx (ns ++ List.replicate m (nulPad H idx))
        = pairUp H idx ns ++
          List.replicate ((ns.length + m + 1) / 2 - (ns.length + 1) / 2)
            (nulPad H (idx + 1))
  | [], m, hne => absurd rfl hne
  | [x], m, _ => by
      cases m with
      | zero => simp [pairUp]
      | succ m =>
          rw [List.singleton_append, List.replicate_succ, pairUp, pairUp]
          rw [pairUp_replicate H idx m]
          rw [show ([x].length + (m + 1) + 1) / 2 - ([x].length + 1) / 2
              = (m + 1) / 2 by simp; omega]
          rfl
  | x :: y :: rest, m, _ => by
      rw [List.cons_append, List.cons_append, pairUp]
      by_cases hr : rest = []
      · subst hr
        rw [List.nil_append, pairUp_replicate H idx m, pairUp]
        rw [show ([x, y].length + m + 1) / 2 - ([x, y].length + 1) / 2
            = (m + 1) / 2 by simp; omega]
        rfl
      · rw [pairUp_append_pad H idx rest m hr, pairUp]
        rw [show ((x :: y :: rest).length + m + 1) / 2 - ((x :: y :: rest).length + 1) / 2
            = (rest.length + m + 1) / 2 - (rest.length + 1) / 2 by simp; omega]
        rfl

lemma collapse_single (H : List Nat → List Nat) :
    ∀ (f idx : Nat) (x : List Nat), collapse H f idx [x] = x := by
  intro f idx x
  cases f with
  | zero => rfl
  | succ f => rw [collapse, if_pos (by simp)]; rfl

lemma collapse_pad_absorb (H : List Nat → List Nat) :
    ∀ (e f idx : Nat) (ns : List (List Nat)) (m : Nat),
      ns.length + m ≤ 2 ^ e → 2 ^ e < 2 * ns.length → e ≤ f →
      collapse H f idx (ns ++ List.replicate m (nulPad H idx))
        = collapse H f idx ns := by
  intro e
  induction e with
  | zero =>
      intro f idx ns m h1 h2 _
      have hm : m = 0 := by omega
      subst hm
      simp
  | succ e ih =>
      intro f idx ns m h1 h2 hef
      rcases Nat.eq_zero_or_pos m with hm | hm
      · subst hm
        simp
      · have hpe : 2 ^ (e + 1) = 2 * 2 ^ e := by rw [pow_succ]; ring
        have hlen2 : 2 ≤ ns.length := by omega
        obtain ⟨f', rfl⟩ : ∃ f', f = f' + 1 := ⟨f - 1, by omega⟩
        rw [collapse, collapse]
        rw [if_neg (by simp only [List.length_append, List.length_replicate]; omega),
          if_neg (by omega)]
        rw [pairUp_append_pad H idx ns m
          (by intro hc; rw [hc] at hlen2; simp at hlen2)]
        have hpl := pairUp_length H idx ns
        exact ih f' (idx + 1) (pairUp H idx ns) _
          (by rw [hpl]; omega) (by rw [hpl]; omega) (by omega)

lemma collapse_pad_single (H : List Nat → List Nat) :
    ∀ (d f idx : Nat) (x : List Nat), d ≤ f →
      collapse H f idx ([x] ++ List.replicate (2 ^ d - 1) (nulPad H idx))
        = padLoopN H d (idx + 5) x := by
  intro d
  induction d with
  | zero =>
      intro f idx x _
      norm_num [padLoopN, collapse_single]
  | succ d ih =>
      intro f idx x hdf
      obtain ⟨f', rfl⟩ : ∃ f', f = f' + 1 := ⟨f - 1, by omega⟩
      have hp : 2 ^ (d + 1) = 2 * 2 ^ d := by rw [pow_succ]; ring
      have hpow : 1 ≤ 2 ^ d := Nat.one_le_two_pow
      rw [collapse]
      rw [if_neg (by simp only [List.length_append, List.length_replicate,
        List.length_singleton]; omega)]
      rw [pairUp_append_pad H idx [x] _ (by simp)]
      rw [show ([x].length + (2 ^ (d + 1) - 1) + 1) / 2 - ([x].length + 1) / 2
          = 2 ^ d - 1 by simp only [List.length_singleton]; omega]
      have hp1 : pairUp H idx [x] = [hash2 H x (nulPad H idx)] := rfl
      rw [hp1, ih f' (idx + 1) _ (by omega), padLoopN]
      rw [show idx + 5 - 5 = idx by omega, show idx + 1 + 5 = idx + 5 + 1 by omega]

lemma collapse_pad_pow2 (H : List Nat → List Nat) :
    ∀ (a f idx d : Nat) (ns : List (List Nat)),
      ns.length = 2 ^ a → a + d ≤ f →
      collapse H f idx (ns ++ List.replicate (2 ^ (a + d) - 2 ^ a) (nulPad H idx))
        = padLoopN H d (idx + a + 5) (collapse H f idx ns) := by
  intro a
  induction a with
  | zero =>
      intro f idx d ns hlen hf
      obtain ⟨x, rfl⟩ : ∃ x, ns = [x] := by
        cases ns with
        | nil => simp at hlen
        | cons x t =>
            cases t with
            | nil => exact ⟨x, rfl⟩
            | cons y t2 => simp at hlen
      rw [collapse_single]
      rw [show 2 ^ (0 + d) - 2 ^ 0 = 2 ^ d - 1 by norm_num]
      rw [collapse_pad_single H d f idx x (by omega)]
  | succ a ih =>
      intro f idx d ns hlen hf
      obtain ⟨f', rfl⟩ : ∃ f', f = f' + 1 := ⟨f - 1, by omega⟩
      have hp1 : 2 ^ (a + 1) = 2 * 2 ^ a := by rw [pow_succ]; ring
      have hp2 : 2 ^ (a + 1 + d) = 2 * 2 ^ (a + d) := by
        rw [show a + 1 + d = a + d + 1 by omega, pow_succ]
        ring
      have hpow : 1 ≤ 2 ^ a := Nat.one_le_two_pow
      have hpow2 : 2 ^ a ≤ 2 ^ (a + d) := Nat.pow_le_pow_right (by norm_num) (by omega)
      have hne : ns ≠ [] := by
        intro hc
        rw [hc] at hlen
        simp at hlen
        omega
      rw [collapse, collapse]
      rw [if_neg (by simp only [List.length_append, List.length_replicate, hlen]; omega),
        if_neg (by omega)]
      rw [pairUp_append_pad H idx ns _ hne, hlen]
      rw [show (2 ^ (a + 1) + (2 ^ (a + 1 + d) - 2 ^ (a + 1)) + 1) / 2
          - (2 ^ (a + 1) + 1) / 2 = 2 ^ (a + d) - 2 ^ a by omega]
      have hplen : (pairUp H idx ns).length = 2 ^ a := by
        rw [pairUp_length, hlen]
        omega
      rw [ih f' (idx + 1) d (pairUp H idx ns) hplen (by omega)]
      rw [show idx + 1 + a + 5 = idx + (a + 1) + 5 by omega]

lemma MaxLayers_val : MaxLayers = 31 := rfl

/-- Claim C7: for a payload whose natural padded piece size is s, and any
power of two t between s and the maximum piece size, PadCommP applied to
the digest at size s grows it to exactly the commitment obtained by
digesting the payload extended with zero bytes up to t*127/128 payload
bytes (whose padded piece size is t); when s equals t the source
commitment is returned unchanged. -/
theorem extension_agreement (H : List Nat → List Nat)
    (hH : ∀ x, (H x).length = 32) (S : List Nat) (τ : Nat)
    (root : List Nat) (s : Nat)
    (h65 : 65 ≤ S.length) (hmax : S.length ≤ MaxPiecePayload)
    (hdig : digestGo H (mkSt S) = (.ok (root, s), zeroCalc))
    (hst : s ≤ 2 ^ τ) (hτ : 2 ^ τ ≤ MaxPieceSize) :
    ∃ rootT : List Nat,
      digestGo H (mkSt (S ++ List.replicate (2 ^ τ * 127 / 128 - S.length) 0))
        = (.ok (rootT, 2 ^ τ), zeroCalc) ∧
      padCommPGo H root s (2 ^ τ) = .ok rootT := by
  have hmaxv := MaxPiecePayload_val ▸ hmax
  have hMSv := MaxPieceSize_val
  have hML := MaxLayers_val
  rw [digestGo_mkSt H S h65 hmax] at hdig
  simp only [Prod.mk.injEq, Except.ok.injEq] at hdig
  obtain ⟨⟨hroot, hs⟩, -⟩ := hdig
  have hv63 : (S.length + 126) / 127 * 128 < 2 ^ 63 := by
    have h63 : (2:Nat) ^ 63 = 9223372036854775808 := by norm_num
    omega
  obtain ⟨K, hK, hKlo, hKhi⟩ := goRound_spec ((S.length + 126) / 127 * 128)
    (by omega) hv63
  have hs2 : s = 2 ^ K := by rw [← hs, hK]
  have h128K : (128:Nat) ≤ 2 ^ K := by omega
  have hK7 : 7 ≤ K := by
    have h7 : (2:Nat) ^ 7 = 128 := by norm_num
    by_contra hcon
    have : 2 ^ K ≤ 2 ^ 6 := Nat.pow_le_pow_right (by norm_num) (by omega)
    have h6 : (2:Nat) ^ 6 = 64 := by norm_num
    omega
  have hKτ : K ≤ τ := by
    have : (2:Nat) ^ K ≤ 2 ^ τ := by omega
    exact (Nat.pow_le_pow_iff_right (by norm_num)).1 this
  have hτ36 : τ ≤ 36 := by
    have h36 : (2:Nat) ^ 36 = 68719476736 := by norm_num
    by_contra hcon
    have : (2:Nat) ^ 37 ≤ 2 ^ τ := Nat.pow_le_pow_right (by norm_num) (by omega)
    have h37 : (2:Nat) ^ 37 = 137438953472 := by norm_num
    omega
  have hvlo : 2 ^ (K - 1) < (S.length + 126) / 127 * 128 := by
    rcases hKlo with h0 | h0
    · omega
    · exact h0
  have hp7 : (2:Nat) ^ τ = 128 * 2 ^ (τ - 7) := by
    have := pow_add 2 7 (τ - 7)
    rw [show 7 + (τ - 7) = τ by omega] at this
    rw [this]
    norm_num
  have hpK32 : (2:Nat) ^ K = 32 * 2 ^ (K - 5) := by
    have := pow_add 2 5 (K - 5)
    rw [show 5 + (K - 5) = K by omega] at this
    rw [this]
    norm_num
  have hpK16 : (2:Nat) ^ (K - 1) = 16 * 2 ^ (K - 5) := by
    have := pow_add 2 4 (K - 5)
    rw [show 4 + (K - 5) = K - 1 by omega] at this
    rw [this]
    norm_num
  have hp5τ : (2:Nat) ^ (τ - 5) = 4 * 2 ^ (τ - 7) := by
    have := pow_add 2 2 (τ - 7)
    rw [show 2 + (τ - 7) = τ - 5 by omega] at this
    rw [this]
    norm_num
  have hpEE : (2:Nat) ^ (K - 5 + (τ - K)) = 2 ^ (τ - 5) := by
    rw [show K - 5 + (τ - K) = τ - 5 by omega]
  have hp29 : (2:Nat) ^ (τ - 7) ≤ 2 ^ 29 := Nat.pow_le_pow_right (by norm_num) (by omega)
  have h29 : (2:Nat) ^ 29 = 536870912 := by norm_num
  have hMv : MaxPiecePayload = 68182605824 := MaxPiecePayload_val
  have hKτpow : (2:Nat) ^ K ≤ 2 ^ τ := Nat.pow_le_pow_right (by norm_num) hKτ
  have hqp : (S.length + 126) / 127 ≤ 2 ^ (τ - 7) := by omega
  have h4q : 4 * ((S.length + 126) / 127) ≤ 2 ^ (K - 5) := by omega
  have h8q : 2 ^ (K - 5) < 8 * ((S.length + 126) / 127) := by omega
  have hpKτ5 : (2:Nat) ^ (K - 5) ≤ 2 ^ (τ - 5) := Nat.pow_le_pow_right (by norm_num) (by omega)
  have hS'len : (S ++ List.replicate (2 ^ τ * 127 / 128 - S.length) 0).length
      = 127 * 2 ^ (τ - 7) := by
    simp only [List.length_append, List.length_replicate]
    omega
  have h65' : 65 ≤ (S ++ List.replicate (2 ^ τ * 127 / 128 - S.length) 0).length := by
    rw [hS'len]
    have : (1:Nat) ≤ 2 ^ (τ - 7) := Nat.one_le_two_pow
    omega
  have hmax' : (S ++ List.replicate (2 ^ τ * 127 / 128 - S.length) 0).length
      ≤ MaxPiecePayload := by
    rw [hS'len]
    omega
  have hdig2 := digestGo_mkSt H _ h65' hmax'
  rw [hS'len] at hdig2
  rw [show (127 * 2 ^ (τ - 7) + 126) / 127 * 127 - 127 * 2 ^ (τ - 7) = 0 by omega]
    at hdig2
  rw [List.replicate_zero, List.append_nil] at hdig2
  rw [show (127 * 2 ^ (τ - 7) + 126) / 127 * 128 = 2 ^ τ by omega] at hdig2
  have hones : onesCount64 (2 ^ τ) = 1 := onesCount64_pow2 τ (by omega)
  rw [if_neg (by omega)] at hdig2
  rw [show 2 ^ τ * 127 / 128 - S.length
      = ((S.length + 126) / 127 * 127 - S.length)
        + 127 * (2 ^ (τ - 7) - (S.length + 126) / 127) by omega] at hdig2
  rw [List.replicate_add, ← List.append_assoc] at hdig2
  rw [leavesOf_append_zeros _ _
    (by simp only [List.length_append, List.length_replicate]; omega)] at hdig2
  have hz0 : (List.replicate 32 0 : List Nat) = nulPad H 0 := rfl
  rw [hz0] at hdig2
  have hl1len : (leavesOf (S ++ List.replicate
      ((S.length + 126) / 127 * 127 - S.length) 0)).length
      = 4 * ((S.length + 126) / 127) := by
    rw [leavesOf_length]
    simp only [List.length_append, List.length_replicate]
    omega
  rw [show 4 * (2 ^ (τ - 7) - (S.length + 126) / 127)
      = (2 ^ (K - 5) - 4 * ((S.length + 126) / 127))
        + (2 ^ (τ - 5) - 2 ^ (K - 5)) by omega] at hdig2
  rw [← hpEE] at hdig2
  rw [List.replicate_add, ← List.append_assoc] at hdig2
  rw [collapse_pad_pow2 H (K - 5) (MaxLayers + 2) 0 (τ - K) _
    (by simp only [List.length_append, List.length_replicate, hl1len]; omega)
    (by omega)] at hdig2
  rw [collapse_pad_absorb H (K - 5) (MaxLayers + 2) 0 _ _
    (by rw [hl1len]; omega) (by rw [hl1len]; omega) (by omega)] at hdig2
  rw [show 0 + (K - 5) + 5 = K by omega, hroot] at hdig2
  have hrl : root.length = 32 := by
    rw [← hroot]
    apply collapse_length H hH
    · have hpos : 0 < (leavesOf (S ++ List.replicate
          ((S.length + 126) / 127 * 127 - S.length) 0)).length := by
        rw [hl1len]
        omega
      exact List.ne_nil_of_length_pos hpos
    · exact leavesOf_mem_length _
        (by simp only [List.length_append, List.length_replicate]; omega)
  have hpayload : S ++ List.replicate ((S.length + 126) / 127 * 127 - S.length) 0
      ++ List.replicate (127 * (2 ^ (τ - 7) - (S.length + 126) / 127)) 0
      = S ++ List.replicate (2 ^ τ * 127 / 128 - S.length) 0 := by
    rw [List.append_assoc, ← List.replicate_add,
      show (S.length + 126) / 127 * 127 - S.length
        + 127 * (2 ^ (τ - 7) - (S.length + 126) / 127)
        = 2 ^ τ * 127 / 128 - S.length by omega]
  rw [hpayload] at hdig2
  refine ⟨padLoopN H (τ - K) K root, hdig2, ?_⟩
  rw [padCommPGo]
  rw [if_neg (by rw [hrl]; omega)]
  rw [if_neg (by rw [hs2, onesCount64_pow2 K (by omega)]; omega)]
  rw [if_neg (by rw [onesCount64_pow2 τ (by omega)]; omega)]
  rw [if_neg (by omega)]
  rw [if_neg (by omega)]
  rw [if_neg (by omega)]
  by_cases hKeq : K = τ
  · rw [if_pos (show s = 2 ^ τ by rw [hs2, hKeq])]
    rw [show τ - K = 0 by omega, padLoopN]
  · have hlt : s < 2 ^ τ := by
      rw [hs2]
      exact Nat.pow_lt_pow_right (by norm_num) (by omega)
    rw [if_neg (by omega)]
    simp only []
    rw [hs2, trailingZeros64_pow2 K (by omega), trailingZeros64_pow2 τ (by omega)]
    rw [show root.take 32 = root by rw [← hrl, List.take_length]]

theorem extension_agreement_witness :
    (65 ≤ (List.replicate 65 (0:Nat)).length) ∧
    ((List.replicate 65 (0:Nat)).length ≤ MaxPiecePayload) ∧
    (digestGo (fun _ => List.replicate 32 0) (mkSt (List.replicate 65 0))
      = (.ok (List.replicate 32 0, 128), zeroCalc)) ∧
    (128 ≤ 2 ^ 8) ∧ ((2:Nat) ^ 8 ≤ MaxPieceSize) ∧
    ∃ rootT : List Nat,
      digestGo (fun _ => List.replicate 32 0)
          (mkSt (List.replicate 65 0 ++
            List.replicate (2 ^ 8 * 127 / 128 - (List.replicate 65 (0:Nat)).length) 0))
        = (.ok (rootT, 2 ^ 8), zeroCalc) ∧
      padCommPGo (fun _ => List.replicate 32 0) (List.replicate 32 0) 128 (2 ^ 8)
        = .ok rootT :=
  ⟨by decide, by decide, by rfl, by decide, by decide,
    extension_agreement (fun _ => List.replicate 32 0) (fun _ => rfl)
      (List.replicate 65 0) 8 (List.replicate 32 0) 128
      (by decide) (by decide) (by rfl) (by decide) (by decide)⟩

end Commp
